import Mathlib

/-!
Contact-label resolution (`internal/wechatdb/datasource/v4/labels.go`) and the
silk stub (`pkg/util/silk/silk_stub.go`).

A shallow embedding of `fillContactLabelsV4` and its helpers and of `Silk2MP3`,
followed by the properties established about them.

Modelling conventions.

* A Go `string` is a Lean `String` (a sequence of runes; the Go strings handled
  here are taken to be valid UTF-8, where substring search on bytes and on runes
  agree).
* A Go `error` is an `Option String`: `none` is `nil`, `some msg` is an error whose
  `Error()` text is `msg`.  `fmt.Errorf("ctx: %w", err)` is `"ctx: " ++ msg`.  A
  function returning `(value, error)` returns an `Except String value`.
* A Go `int` is an `Int`; the 64-bit range matters only where `fmt.Sscanf` parses
  an id, and is checked there.
* The `*sql.DB` handle is a read-only snapshot: a record `DB` giving, for each SQL
  statement the code issues, the answer of the driver (an error, or the rows with
  the outcome of scanning each).  Answers do not change during one call, so
  cancellation is a query that fails.
* `[]*model.ContactV4` is a `List ContactV4`: the pointers of the slice are taken
  to be non-nil and pairwise distinct.  In-place mutation is modelled by returning
  the final contacts together with the error, so that the state left behind by a
  failed call is visible.
* A Go map is an association list with distinct keys; only lookups, assignments
  and `len(m) == 0` are used, never the iteration order.
* Where a property depends on what SQLite answers for a schema (which names a
  `LIKE` pattern matches, how a table is found by name), the answers are those of
  `schemaDB`, with SQLite's default settings.
-/

namespace Chatlog

/-! ## Strings -/

/-- Runes for which Go's `unicode.IsSpace` holds (Unicode White_Space). -/
def isSpace (c : Char) : Bool :=
  let n := c.toNat
  (9 ≤ n && n ≤ 13) || n == 32 || n == 0x85 || n == 0xA0 || n == 0x1680 ||
  (0x2000 ≤ n && n ≤ 0x200A) || n == 0x2028 || n == 0x2029 || n == 0x202F ||
  n == 0x205F || n == 0x3000

/-- Drop trailing white space. -/
def trimRight (s : List Char) : List Char :=
  (s.reverse.dropWhile isSpace).reverse

/-- Go `strings.TrimSpace` on the runes of a string. -/
def trimSpaceChars (s : List Char) : List Char :=
  trimRight (s.dropWhile isSpace)

/-- Go `strings.TrimSpace`. -/
def trimSpace (s : String) : String :=
  ⟨trimSpaceChars s.data⟩

/-- Whether `p` is an initial segment of `s`. -/
def startsWith : List Char → List Char → Bool
  | _, [] => true
  | [], _ :: _ => false
  | c :: s, d :: p => c == d && startsWith s p

/-- Whether `sub` occurs in `s` as a contiguous block. -/
def containsChars (s sub : List Char) : Bool :=
  startsWith s sub ||
    match s with
    | [] => false
    | _ :: t => containsChars t sub

/-- Go `strings.Contains`. -/
def strContains (s sub : String) : Bool :=
  containsChars s.data sub.data

/-- Go `unicode.ToLower` on one rune.  The case table is reproduced for every rune
whose lower-case form is an ASCII rune (`A`..`Z`, U+0130 and U+212A); other runes
are left unchanged.  Every comparison in this program is against an ASCII
constant or a caseless CJK marker, for which this is exact. -/
def toLowerRune (c : Char) : Char :=
  if c.toNat = 0x130 then 'i'
  else if c.toNat = 0x212A then 'k'
  else c.toLower

/-- Go `strings.ToLower`. -/
def toLower (s : String) : String :=
  ⟨s.data.map toLowerRune⟩

/-- Whether two runes are equal under Unicode simple case folding, as in Go
`strings.EqualFold`.  The folding orbits are reproduced for every orbit that
contains an ASCII rune: the letter pairs and the two three-element orbits
`k K U+212A` and `s S U+017F`. -/
def equalFoldRune (a b : Char) : Bool :=
  a == b || (a.isAlpha && b.isAlpha && a.toLower == b.toLower) ||
  (a.toNat == 0x212A && (b == 'k' || b == 'K')) ||
  (b.toNat == 0x212A && (a == 'k' || a == 'K')) ||
  (a.toNat == 0x17F && (b == 's' || b == 'S')) ||
  (b.toNat == 0x17F && (a == 's' || a == 'S'))

/-- Go `strings.EqualFold` on rune sequences. -/
def equalFoldChars : List Char → List Char → Bool
  | [], [] => true
  | a :: s, b :: t => equalFoldRune a b && equalFoldChars s t
  | _, _ => false

/-- Go `strings.EqualFold`. -/
def equalFold (s t : String) : Bool :=
  equalFoldChars s.data t.data

/-! ## Pure helpers of `labels.go` -/

/-- Go `strings.Split(raw, ",")` on rune sequences: the pieces between commas
(one piece more than there are commas). -/
def splitComma : List Char → List (List Char)
  | [] => [[]]
  | c :: cs =>
    if c = ',' then [] :: splitComma cs
    else
      match splitComma cs with
      | [] => [[c]]
      | p :: ps => (c :: p) :: ps

/-- Value of a run of decimal digits, most significant first. -/
def decimalValue (ds : List Char) : Nat :=
  ds.foldl (fun acc c => acc * 10 + (c.toNat - 48)) 0

/-- Runes that `fmt` accepts while scanning the number of a `%d` verb:
the decimal digits and the underscore. -/
def isNumberRune (c : Char) : Bool :=
  c.isDigit || c == '_'

/-- Go `fmt.Sscanf(part, "%d", &id)` with `id` an `int` (64 bits), for a `part`
that does not start with white space (it has been trimmed): `none` when `Sscanf`
reports an error, `some id` otherwise.  An optional sign is read, then the longest
run of digits and underscores; the run must be non-empty, `strconv.ParseInt(tok,
10, 64)` rejects an underscore and a value outside the 64-bit range.  Input after
the number is not examined. -/
def sscanfInt (part : List Char) : Option Int :=
  let signed : Bool × List Char :=
    match part with
    | '+' :: r => (false, r)
    | '-' :: r => (true, r)
    | r => (false, r)
  let tok := signed.2.takeWhile isNumberRune
  if tok = [] then none
  else if tok.any (fun c => c == '_') then none
  else
    let n := decimalValue tok
    if signed.1 then (if n ≤ 2 ^ 63 then some (-(n : Int)) else none)
    else (if n < 2 ^ 63 then some (n : Int) else none)

/-- One iteration of the loop of `splitIDs`: the id a piece contributes, if any. -/
def parseID (part : List Char) : Option Int :=
  let part := trimSpaceChars part
  if part = [] then none
  else
    match sscanfInt part with
    | some id => if id > 0 then some id else none
    | none => none

/-- The function `splitIDs`. -/
def splitIDs (raw : String) : List Int :=
  (splitComma raw.data).filterMap parseID

/-- The function `looksLikeClient`. -/
def looksLikeClient (value : String) : Bool :=
  let value := trimSpace value
  if value = "" then false
  else
    let normalized := toLower value
    if strContains value "客户" then true
    else if strContains normalized "[客户]" then true
    else if strContains normalized "#客户" then true
    else if strContains normalized "customer" then true
    else false

/-- The loop of `dedup`; `seen` holds the values met so far. -/
def dedupLoop (seen : List String) : List String → List String
  | [] => []
  | value :: values =>
    if value ∈ seen then dedupLoop seen values
    else value :: dedupLoop (value :: seen) values

/-- The function `dedup`. -/
def dedup (values : List String) : List String :=
  dedupLoop [] values

/-- The function `isNoSuchTableErr`. -/
def isNoSuchTableErr (err : Option String) : Bool :=
  match err with
  | none => false
  | some msg => strContains msg "no such table"

/-! ## Data model -/

/-- Modelled from the spec: the record `model.ContactV4`, whose declaration is not
part of the sources; the fields the resolver reads or writes are the identifier,
the remark and the labels. -/
structure ContactV4 where
  UserName : String
  Remark : String
  Labels : List String
deriving DecidableEq, Repr

/-- The dictionary `map[int]string`, as an association list with distinct keys. -/
abbrev LabelMap := List (Int × String)

/-- The lookup `name, ok := labelMap[id]`. -/
def LabelMap.get : LabelMap → Int → Option String
  | [], _ => none
  | (k, v) :: rest, id => if k = id then some v else LabelMap.get rest id

/-- The assignment `labels[id] = name`. -/
def LabelMap.set : LabelMap → Int → String → LabelMap
  | [], id, name => [(id, name)]
  | (k, v) :: rest, id, name =>
    if k = id then (k, name) :: rest else (k, v) :: LabelMap.set rest id name

/-- The association mapping `map[string][]string`, as an association list with
distinct keys; `len(link) == 0` is `link = []`. -/
abbrev LinkMap := List (String × List String)

/-- The lookup `names, ok := link[username]`. -/
def LinkMap.get : LinkMap → String → Option (List String)
  | [], _ => none
  | (k, v) :: rest, u => if k = u then some v else LinkMap.get rest u

/-- The statement `link[username] = append(link[username], name)`. -/
def LinkMap.push : LinkMap → String → String → LinkMap
  | [], u, name => [(u, [name])]
  | (k, v) :: rest, u, name =>
    if k = u then (k, v ++ [name]) :: rest else (k, v) :: LinkMap.push rest u name

/-! ## The database handle -/

/-- What iterating a `*sql.Rows` yields: the rows fetched, each with the outcome of
`rows.Scan` into the destination variables of the call site, and the value of
`rows.Err()` once `rows.Next()` has returned false. -/
structure Rows (α : Type) where
  items : List (Except String α)
  err : Option String

/-- Outcome of `db.QueryContext`: an error, or rows to iterate. -/
abbrev QueryResult (α : Type) := Except String (Rows α)

/-- Outcome of `QueryRowContext(...).Scan(...)`: a scanned row, `sql.ErrNoRows`, or
another error. -/
inductive RowResult (α : Type) where
  | row (a : α)
  | noRows
  | failed (msg : String)

/-- The answers of the database to the statements issued by the resolver. -/
structure DB where
  /-- Answer to `SELECT label_id_, label_name_ FROM contact_label`. -/
  selectLabels : QueryResult (Int × String)
  /-- Answer to `PRAGMA table_info(t)`: the `name` field of each row. -/
  tableInfo : String → QueryResult String
  /-- Answer to `SELECT username, LabelIDList FROM contact`; the second field is a
  `sql.NullString`. -/
  selectLabelIDList : QueryResult (String × Option String)
  /-- Answer to `SELECT 1 FROM sqlite_master WHERE type='table' AND name=?`. -/
  masterLookup : String → RowResult Int
  /-- Answer to `SELECT name FROM sqlite_master WHERE type='table' AND name LIKE
  '%label%'`. -/
  masterLabelTables : QueryResult String
  /-- Answer to `SELECT userCol, labelCol FROM tbl`, by `userCol`, `labelCol`,
  `tbl`. -/
  selectLink : String → String → String → QueryResult (String × Int)
  /-- Error of `PrepareContext` for `SELECT description FROM contact WHERE
  username = ?`, if any. -/
  prepareDescription : Option String
  /-- Answer of the prepared description statement for a username; the field is a
  `sql.NullString`. -/
  queryDescription : String → RowResult (Option String)

/-! ## Schema probes and the dictionary loader -/

/-- The row loop of `loadAllLabels`, followed by its `rows.Err()` check. -/
def loadLabelsLoop (err : Option String) :
    List (Except String (Int × String)) → LabelMap → Except String LabelMap
  | [], labels =>
    match err with
    | some e => .error ("iterate contact_label: " ++ e)
    | none => .ok labels
  | .error e :: _, _ => .error ("scan contact_label: " ++ e)
  | .ok (id, name) :: rest, labels => loadLabelsLoop err rest (LabelMap.set labels id name)

/-- The function `loadAllLabels`. -/
def loadAllLabels (db : DB) : Except String LabelMap :=
  match db.selectLabels with
  | .error e => .error e
  | .ok rows => loadLabelsLoop rows.err rows.items []

/-- The row loop of `columnExists`, followed by its `rows.Err()` check. -/
def columnExistsLoop (lower : String) (err : Option String) :
    List (Except String String) → Except String Bool
  | [] =>
    match err with
    | some e => .error ("iterate pragma table_info: " ++ e)
    | none => .ok false
  | .error e :: _ => .error ("scan pragma table_info: " ++ e)
  | .ok name :: rest =>
    if equalFold name lower then .ok true else columnExistsLoop lower err rest

/-- The function `columnExists`; an error result stands for `(false, err)`. -/
def columnExists (db : DB) (table column : String) : Except String Bool :=
  match db.tableInfo table with
  | .error e => .error e
  | .ok rows => columnExistsLoop (toLower column) rows.err rows.items

/-- The function `tableExists`; an error result stands for `(false, err)`. -/
def tableExists (db : DB) (table : String) : Except String Bool :=
  match db.masterLookup table with
  | .row _ => .ok true
  | .noRows => .ok false
  | .failed msg => if isNoSuchTableErr (some msg) then .ok false else .error msg

/-- The row loop of `columnsExist`: the lower-cased names recorded in `found`. -/
def foundLoop : List (Except String String) → List String → Except String (List String)
  | [], found => .ok found
  | .error e :: _, _ => .error ("scan pragma table_info: " ++ e)
  | .ok name :: rest, found => foundLoop rest (toLower name :: found)

/-- The function `columnsExist`; an error result stands for `(false, err)`. -/
def columnsExist (db : DB) (table : String) (columns : List String) : Except String Bool :=
  match tableExists db table with
  | .error e => .error e
  | .ok false => .ok false
  | .ok true =>
    match db.tableInfo table with
    | .error e => .error e
    | .ok rows =>
      match foundLoop rows.items [] with
      | .error e => .error e
      | .ok found =>
        match rows.err with
        | some e => .error ("iterate pragma table_info: " ++ e)
        | none => .ok (columns.all (fun column => decide (toLower column ∈ found)))

/-- The named candidates of `detectLinkTable`, in priority order. -/
def candidates : List (String × String × String) :=
  [("rcontact_label", "username", "label_id_"),
   ("contact_label_map", "username", "label_id_"),
   ("contact2label", "username", "label_id_")]

/-- The loop of `detectLinkTable` over the named candidates: `.ok (some _)` when a
candidate is returned, `.ok none` when the loop ends without one. -/
def detectCandidates (db : DB) :
    List (String × String × String) → Except String (Option (String × String × String))
  | [] => .ok none
  | (table, userCol, labelCol) :: rest =>
    match tableExists db table with
    | .error e =>
      if isNoSuchTableErr (some e) then detectCandidates db rest
      else .error ("check table " ++ table ++ ": " ++ e)
    | .ok false => detectCandidates db rest
    | .ok true =>
      match columnsExist db table [userCol, labelCol] with
      | .error e => .error e
      | .ok true => .ok (some (table, userCol, labelCol))
      | .ok false => detectCandidates db rest

/-- The loop of `detectLinkTable` over the tables listed by `sqlite_master`,
followed by its `rows.Err()` check. -/
def detectWildcard (db : DB) (err : Option String) :
    List (Except String String) → Except String (String × String × String)
  | [] =>
    match err with
    | some e => .error ("iterate sqlite_master: " ++ e)
    | none => .ok ("", "", "")
  | .error e :: _ => .error ("scan sqlite_master: " ++ e)
  | .ok table :: rest =>
    match columnsExist db table ["username", "label_id_"] with
    | .error e => if isNoSuchTableErr (some e) then detectWildcard db err rest else .error e
    | .ok true => .ok (table, "username", "label_id_")
    | .ok false => detectWildcard db err rest

/-- The function `detectLinkTable`: table, user column, label column. -/
def detectLinkTable (db : DB) : Except String (String × String × String) :=
  match detectCandidates db candidates with
  | .error e => .error e
  | .ok (some found) => .ok found
  | .ok none =>
    match db.masterLabelTables with
    | .error e =>
      if isNoSuchTableErr (some e) then .ok ("", "", "")
      else .error ("query sqlite_master: " ++ e)
    | .ok rows => detectWildcard db rows.err rows.items

/-! ## The three tiers and the annotator -/

/-- The statement `if name, ok := labelMap[id]; ok && name != "" { link[username] =
append(link[username], name) }`. -/
def addLabel (labelMap : LabelMap) (username : String) (link : LinkMap) (id : Int) : LinkMap :=
  match labelMap.get id with
  | some name => if name ≠ "" then link.push username name else link
  | none => link

/-- The row loop over `SELECT username, LabelIDList FROM contact` (lines 42-60),
followed by its `rows.Err()` check. -/
def idListLoop (labelMap : LabelMap) (err : Option String) :
    List (Except String (String × Option String)) → LinkMap → Except String LinkMap
  | [], link =>
    match err with
    | some e => .error ("iterate label id list: " ++ e)
    | none => .ok link
  | .error e :: _, _ => .error ("scan label id list: " ++ e)
  | .ok (username, raw) :: rest, link =>
    match raw with
    | none => idListLoop labelMap err rest link
    | some s =>
      if trimSpace s = "" then idListLoop labelMap err rest link
      else idListLoop labelMap err rest ((splitIDs s).foldl (addLabel labelMap username) link)

/-- The inline-list tier (lines 27-62): the association mapping after it. -/
def inlineTier (db : DB) (labelMap : LabelMap) : Except String LinkMap :=
  let run (hasListColumn : Bool) : Except String LinkMap :=
    if hasListColumn then
      match db.selectLabelIDList with
      | .error e =>
        if ¬ isNoSuchTableErr (some e) then .error ("query label id list: " ++ e) else .ok []
      | .ok rows => idListLoop labelMap rows.err rows.items []
    else .ok []
  match columnExists db "contact" "LabelIDList" with
  | .error e =>
    if ¬ isNoSuchTableErr (some e) then .error ("check LabelIDList column: " ++ e)
    else run false
  | .ok hasListColumn => run hasListColumn

/-- The row loop over the link table (lines 78-90), followed by its `rows.Err()`
check. -/
def linkRowsLoop (labelMap : LabelMap) (err : Option String) :
    List (Except String (String × Int)) → LinkMap → Except String LinkMap
  | [], link =>
    match err with
    | some e => .error ("iterate label link table: " ++ e)
    | none => .ok link
  | .error e :: _, _ => .error ("scan label link table: " ++ e)
  | .ok (username, labelID) :: rest, link =>
    linkRowsLoop labelMap err rest (addLabel labelMap username link labelID)

/-- The link-table tier (lines 64-93), entered with `link`: the association mapping
after it. -/
def linkTableTier (db : DB) (labelMap : LabelMap) (link : LinkMap) : Except String LinkMap :=
  if link.length = 0 then
    match detectLinkTable db with
    | .error e => .error e
    | .ok (tbl, userCol, labelCol) =>
      if tbl ≠ "" then
        match db.selectLink userCol labelCol tbl with
        | .error e =>
          if ¬ isNoSuchTableErr (some e) then .error ("query label link table: " ++ e)
          else .ok link
        | .ok rows => linkRowsLoop labelMap rows.err rows.items link
      else .ok link
  else .ok link

/-- The statement `c.Labels = append(c.Labels, "客户")`. -/
def markClient (c : ContactV4) : ContactV4 :=
  { c with Labels := c.Labels ++ ["客户"] }

/-- The contact loop of the heuristic tier (lines 109-125); `hasStmt` tells whether
`descStmt` is non-nil.  The contacts are mutated in place, so those already
processed keep their new labels when the loop returns an error. -/
def heuristicLoop (db : DB) (hasStmt : Bool) : List ContactV4 → List ContactV4 × Option String
  | [] => ([], none)
  | c :: rest =>
    if looksLikeClient c.Remark then
      let r := heuristicLoop db hasStmt rest
      (markClient c :: r.1, r.2)
    else if hasStmt then
      match db.queryDescription c.UserName with
      | .failed msg => (c :: rest, some ("query description: " ++ msg))
      | .noRows =>
        let r := heuristicLoop db hasStmt rest
        (c :: r.1, r.2)
      | .row description =>
        let r := heuristicLoop db hasStmt rest
        match description with
        | some d => if looksLikeClient d then (markClient c :: r.1, r.2) else (c :: r.1, r.2)
        | none => (c :: r.1, r.2)
    else
      let r := heuristicLoop db hasStmt rest
      (c :: r.1, r.2)

/-- The heuristic tier (lines 96-125): the contacts after it and the error
returned. -/
def heuristicTier (db : DB) (contacts : List ContactV4) : List ContactV4 × Option String :=
  let run (hasDescription : Bool) : List ContactV4 × Option String :=
    if hasDescription then
      match db.prepareDescription with
      | some e =>
        if ¬ isNoSuchTableErr (some e) then (contacts, some ("prepare description query: " ++ e))
        else heuristicLoop db false contacts
      | none => heuristicLoop db true contacts
    else heuristicLoop db false contacts
  match columnExists db "contact" "description" with
  | .error e =>
    if ¬ isNoSuchTableErr (some e) then (contacts, some ("check description column: " ++ e))
    else run false
  | .ok hasDescription => run hasDescription

/-- The body of the annotation loop (lines 129-131). -/
def annotateOne (link : LinkMap) (c : ContactV4) : ContactV4 :=
  match link.get c.UserName with
  | some names => if names.length > 0 then { c with Labels := c.Labels ++ dedup names } else c
  | none => c

/-- The annotation loop (lines 128-132). -/
def annotate (link : LinkMap) (contacts : List ContactV4) : List ContactV4 :=
  contacts.map (annotateOne link)

/-- The dictionary as `fillContactLabelsV4` uses it (lines 18-25): a missing table
gives the empty dictionary. -/
def loadLabelMap (db : DB) : Except String LabelMap :=
  match loadAllLabels db with
  | .error e => if isNoSuchTableErr (some e) then .ok [] else .error ("load labels: " ++ e)
  | .ok labelMap => .ok labelMap

/-- The association mapping `link` when line 95 is reached (lines 18-93). -/
def collectLink (db : DB) : Except String LinkMap :=
  match loadLabelMap db with
  | .error e => .error e
  | .ok labelMap =>
    match inlineTier db labelMap with
    | .error e => .error e
    | .ok link => linkTableTier db labelMap link

/-- The function `fillContactLabelsV4`: the contacts as the call leaves them, and
the error it returns. -/
def fillContactLabelsV4 (db : DB) (contacts : List ContactV4) : List ContactV4 × Option String :=
  if contacts.length = 0 then (contacts, none)
  else
    match collectLink db with
    | .error e => (contacts, some e)
    | .ok link =>
      if link.length = 0 then heuristicTier db contacts
      else (annotate link contacts, none)

/-! ## Concrete databases

The answers SQLite gives for small schemas, used to evaluate the resolver. -/

/-- Rows that all scan, with no iteration error. -/
def rowsOf {α : Type} (xs : List α) : Rows α :=
  { items := xs.map Except.ok, err := none }

/-- The answers of an empty SQLite database: every table is missing.  A `SELECT` or
a prepare fails with `no such table`, `PRAGMA table_info` returns no row, and
`sqlite_master` lists nothing. -/
def emptyDB : DB where
  selectLabels := .error "no such table: contact_label"
  tableInfo := fun _ => .ok (rowsOf [])
  selectLabelIDList := .error "no such table: contact"
  masterLookup := fun _ => .noRows
  masterLabelTables := .ok (rowsOf [])
  selectLink := fun _ _ tbl => .error ("no such table: " ++ tbl)
  prepareDescription := some "no such table: contact"
  queryDescription := fun _ => .noRows

/-- The database of the test `LabelIDList column`. -/
def inlineTestDB : DB :=
  { emptyDB with
    selectLabels := .ok (rowsOf [(1, "客户"), (2, "VIP")])
    tableInfo := fun t =>
      if t = "contact" then .ok (rowsOf ["username", "LabelIDList", "remark", "description"])
      else if t = "contact_label" then .ok (rowsOf ["label_id_", "label_name_"])
      else .ok (rowsOf [])
    selectLabelIDList := .ok (rowsOf [("alice", some "1,2"), ("bob", none)])
    masterLookup := fun t =>
      if t = "contact" ∨ t = "contact_label" then .row 1 else .noRows
    masterLabelTables := .ok (rowsOf ["contact_label"])
    prepareDescription := none
    queryDescription := fun u =>
      if u = "alice" ∨ u = "bob" then .row none else .noRows }

/-- The database of the test `Mapping table fallback`. -/
def linkTestDB : DB :=
  { emptyDB with
    selectLabels := .ok (rowsOf [(1, "朋友"), (2, "供应商")])
    tableInfo := fun t =>
      if t = "contact" then .ok (rowsOf ["username", "remark"])
      else if t = "contact_label" then .ok (rowsOf ["label_id_", "label_name_"])
      else if t = "rcontact_label" then .ok (rowsOf ["username", "label_id_"])
      else .ok (rowsOf [])
    selectLabelIDList := .error "no such column: LabelIDList"
    masterLookup := fun t =>
      if t = "contact" ∨ t = "contact_label" ∨ t = "rcontact_label" then .row 1 else .noRows
    masterLabelTables := .ok (rowsOf ["contact_label", "rcontact_label"])
    selectLink := fun userCol labelCol tbl =>
      if tbl = "rcontact_label" ∧ userCol = "username" ∧ labelCol = "label_id_" then
        .ok (rowsOf [("carol", 1), ("dave", 2), ("dave", 1)])
      else .error ("no such table: " ++ tbl)
    prepareDescription := some "no such column: description" }

/-- The database of the test `Heuristic fallback`. -/
def heuristicTestDB : DB :=
  { emptyDB with
    tableInfo := fun t =>
      if t = "contact" then .ok (rowsOf ["username", "remark", "description"])
      else .ok (rowsOf [])
    selectLabelIDList := .error "no such column: LabelIDList"
    masterLookup := fun t => if t = "contact" then .row 1 else .noRows
    prepareDescription := none
    queryDescription := fun u =>
      if u = "eva" then .row none
      else if u = "frank" then .row (some "潜在客户")
      else if u = "gina" then .row (some "")
      else .noRows }

/-- The database of the test `Mapping table fallback` with one link row, whose
label id is not in the dictionary. -/
def linkUnknownDB : DB :=
  { linkTestDB with
    selectLink := fun userCol labelCol tbl =>
      if tbl = "rcontact_label" ∧ userCol = "username" ∧ labelCol = "label_id_" then
        .ok (rowsOf [("dave", 7)])
      else .error ("no such table: " ++ tbl) }

/-- The database of the test `Mapping table fallback` with other link rows and a
description column. -/
def linkOtherDB : DB :=
  { linkTestDB with
    tableInfo := fun t =>
      if t = "contact" then .ok (rowsOf ["username", "remark", "description"])
      else linkTestDB.tableInfo t
    prepareDescription := none
    queryDescription := fun _ => .row (some "customer") }

/-- The database of the test `LabelIDList column` with a link table and
descriptions added. -/
def inlineOtherDB : DB :=
  { inlineTestDB with
    tableInfo := fun t =>
      if t = "rcontact_label" then .ok (rowsOf ["username", "label_id_"])
      else inlineTestDB.tableInfo t
    masterLookup := fun t =>
      if t = "rcontact_label" then .row 1 else inlineTestDB.masterLookup t
    selectLink := fun _ _ _ => .ok (rowsOf [("bob", 2), ("alice", 2)])
    queryDescription := fun _ => .row (some "customer") }

/-- The database of the test `Heuristic fallback` in which the description lookup
for `frank` fails. -/
def heuristicFailDB : DB :=
  { heuristicTestDB with
    queryDescription := fun u =>
      if u = "frank" then .failed "disk I/O error" else heuristicTestDB.queryDescription u }

/-- A database whose `contact_label` table has the columns `id` and `name` instead
of `label_id_` and `label_name_`, beside a `contact` table with `username` and
`remark`. -/
def renamedLabelColumnsDB : DB :=
  { emptyDB with
    selectLabels := .error "no such column: label_id_"
    tableInfo := fun t =>
      if t = "contact" then .ok (rowsOf ["username", "remark"])
      else if t = "contact_label" then .ok (rowsOf ["id", "name"])
      else .ok (rowsOf [])
    selectLabelIDList := .error "no such column: LabelIDList"
    masterLookup := fun t =>
      if t = "contact" ∨ t = "contact_label" then .row 1 else .noRows
    masterLabelTables := .ok (rowsOf ["contact_label"])
    prepareDescription := some "no such column: description" }

/-! ## Notions used to state the properties -/

/-- The rows of an answer that scan, in order. -/
def Rows.values {α : Type} (r : Rows α) : List α :=
  r.items.filterMap (fun x => match x with
    | .ok a => some a
    | .error _ => none)

/-- Rows that iterate without a scan error and without an iteration error. -/
def Rows.Clean {α : Type} (r : Rows α) : Prop :=
  (∀ x ∈ r.items, ∃ a, x = Except.ok a) ∧ r.err = none

/-- The name a label id contributes to a contact: its dictionary name, when the id
is in the dictionary with a non-empty name. -/
def resolveName (labelMap : LabelMap) (id : Int) : Option String :=
  match labelMap.get id with
  | some name => if name ≠ "" then some name else none
  | none => none

/-- The error text of SQLite for a missing table or a missing column. -/
def IsAbsenceMsg (msg : String) : Prop :=
  ∃ n : String, msg = "no such table: " ++ n ∨ msg = "no such column: " ++ n

/-- A query that succeeds with clean rows, or fails for a missing table or a
missing column. -/
def OkOrAbsent {α : Type} (q : QueryResult α) : Prop :=
  match q with
  | .ok rows => rows.Clean
  | .error e => IsAbsenceMsg e

/-- A query that succeeds with clean rows, or fails with an error the resolver
recognises as a missing table. -/
def OkOrNoTable {α : Type} (q : QueryResult α) : Prop :=
  match q with
  | .ok rows => rows.Clean
  | .error e => isNoSuchTableErr (some e) = true

/-- No query fails for a reason other than a missing table or a missing column:
each `SELECT` and the prepare succeed or fail with SQLite's error for a missing
table or column, `PRAGMA table_info` succeeds (SQLite answers it with no row for a
missing table), and no row fails to scan. -/
structure SchemaAbsenceOnly (db : DB) : Prop where
  labels : OkOrAbsent db.selectLabels
  tableInfo : ∀ t, ∃ rows, db.tableInfo t = .ok rows ∧ rows.Clean
  masterLookup : ∀ t msg, db.masterLookup t = .failed msg → IsAbsenceMsg msg
  masterLabelTables : OkOrAbsent db.masterLabelTables
  idList : OkOrAbsent db.selectLabelIDList
  link : ∀ u l t, OkOrAbsent (db.selectLink u l t)
  prepare : ∀ e, db.prepareDescription = some e → IsAbsenceMsg e
  description : ∀ u msg, db.queryDescription u ≠ .failed msg

/-- Every statement the resolver issues succeeds or fails for a missing table.  The
statements that name a column other than those of `contact_label` and `username`
of `contact` are issued only after a probe has found the column, and are
constrained only then. -/
structure MissingTablesOnly (db : DB) : Prop where
  labels : OkOrNoTable db.selectLabels
  tableInfo : ∀ t, ∃ rows, db.tableInfo t = .ok rows ∧ rows.Clean
  masterLookup : ∀ t msg, db.masterLookup t = .failed msg → isNoSuchTableErr (some msg) = true
  masterLabelTables : OkOrNoTable db.masterLabelTables
  idList : columnExists db "contact" "LabelIDList" = .ok true → OkOrNoTable db.selectLabelIDList
  link : ∀ u l t, columnsExist db t [u, l] = .ok true → OkOrNoTable (db.selectLink u l t)
  prepare : columnExists db "contact" "description" = .ok true →
    ∀ e, db.prepareDescription = some e → isNoSuchTableErr (some e) = true
  description : ∀ u msg, db.queryDescription u ≠ .failed msg

/-- The associations a list of `(username, name)` pairs adds to a mapping, one
`append` per pair, in order. -/
def pushAll (link : LinkMap) (pairs : List (String × String)) : LinkMap :=
  pairs.foldl (fun l p => l.push p.1 p.2) link

/-- The names one raw `LabelIDList` value contributes: nothing when it is null or
blank, else the resolved names of its ids, in order. -/
def namesOfRaw (labelMap : LabelMap) (raw : Option String) : List String :=
  match raw with
  | none => []
  | some s => if trimSpace s = "" then [] else (splitIDs s).filterMap (resolveName labelMap)

/-- The `(username, name)` associations the rows of the contact table yield, in row
order. -/
def inlineEvidence (labelMap : LabelMap) (values : List (String × Option String)) :
    List (String × String) :=
  values.flatMap (fun r => (namesOfRaw labelMap r.2).map (fun name => (r.1, name)))

/-- The `(username, name)` associations the rows of a link table yield, in row
order. -/
def linkEvidence (labelMap : LabelMap) (values : List (String × Int)) :
    List (String × String) :=
  values.filterMap (fun r => (resolveName labelMap r.2).map (fun name => (r.1, name)))

/-- Whether the heuristic tier obtains a prepared description statement: the
description column is found and the prepare succeeds. -/
def hasDescStmt (db : DB) : Bool :=
  match columnExists db "contact" "description" with
  | .ok true => db.prepareDescription.isNone
  | _ => false

/-- Whether the heuristic tier marks a contact: its remark is recognised, or the
statement is available and returns a description that is recognised. -/
def heuristicMarks (db : DB) (hasStmt : Bool) (c : ContactV4) : Bool :=
  looksLikeClient c.Remark ||
    (hasStmt &&
      match db.queryDescription c.UserName with
      | .row (some d) => looksLikeClient d
      | _ => false)

/-- What one call may do to a contact: identifier and remark are kept, and names
without repetition are appended to the labels. -/
def Appended (c c' : ContactV4) : Prop :=
  c'.UserName = c.UserName ∧ c'.Remark = c.Remark ∧
    ∃ added : List String, c'.Labels = c.Labels ++ added ∧ added.Nodup

/-- A non-empty list of decimal numerals of positive ids (representable as a Go
`int`) that are all keys of the dictionary with non-empty names. -/
def KnownIdList (labelMap : LabelMap) (toks : List (List Char)) : Prop :=
  toks ≠ [] ∧
  ∀ t ∈ toks, t ≠ [] ∧ (∀ ch ∈ t, ch.isDigit = true) ∧ 0 < decimalValue t ∧
    decimalValue t < 2 ^ 63 ∧
    ∃ name, labelMap.get (decimalValue t : Int) = some name ∧ name ≠ ""

/-- The contacts of the test `LabelIDList column`. -/
def inlineTestContacts : List ContactV4 :=
  [⟨"alice", "Alice", []⟩, ⟨"bob", "Bob", []⟩]

/-- The contacts of the test `Mapping table fallback`. -/
def linkTestContacts : List ContactV4 :=
  [⟨"carol", "", []⟩, ⟨"dave", "", []⟩]

/-- The contacts of the test `Heuristic fallback`. -/
def heuristicTestContacts : List ContactV4 :=
  [⟨"eva", "张三-客户", []⟩, ⟨"frank", "", []⟩, ⟨"gina", "", []⟩]

/-- A contact whose remark carries the marker, with no label on entry. -/
def daveClient : ContactV4 :=
  ⟨"dave", "老客户", []⟩

/-- A contact whose remark holds the English word but not the marker `客户`. -/
def ginaCustomer : ContactV4 :=
  ⟨"gina", "Big Customer", []⟩

/-- A contact that already carries the label `客户` on entry and whose remark holds
the marker. -/
def evaLabelled : ContactV4 :=
  ⟨"eva", "张三-客户", ["客户"]⟩

/-! ## The silk stub (`pkg/util/silk/silk_stub.go`) -/

/-- The function `Silk2MP3` of the build without cgo.  A `[]byte` is an optional list
of bytes, `none` being the nil slice; the result is the pair `([]byte, error)`. -/
def Silk2MP3 (_data : Option (List Nat)) : Option (List Nat) × Option String :=
  (none, some "silk to mp3 conversion requires cgo-enabled build")

/-! ## Notions used to state the properties of the probes and parsers -/

/-- Whether the lookup of a table in `sqlite_master` returns a row. -/
def tablePresent (db : DB) (table : String) : Bool :=
  match db.masterLookup table with
  | .row _ => true
  | _ => false

/-- The live column names of a table: the rows of `PRAGMA table_info`. -/
def liveColumns (db : DB) (table : String) : List String :=
  match db.tableInfo table with
  | .ok rows => rows.values
  | .error _ => []

/-- Two names are equal ignoring letter case: their lower-case forms are equal. -/
def sameIgnoringCase (a b : String) : Bool :=
  toLower a == toLower b

/-- Whether a requested column equals, ignoring letter case, a live column of the
table. -/
def hasColumn (db : DB) (table column : String) : Bool :=
  (liveColumns db table).any (fun name => sameIgnoringCase name column)

/-- Whether a table exists and has both columns `username` and `label_id_`. -/
def isLinkTable (db : DB) (table : String) : Bool :=
  tablePresent db table && hasColumn db table "username" && hasColumn db table "label_id_"

/-- The result of `detectLinkTable` for an optional table. -/
def linkResult (found : Option String) : String × String × String :=
  match found with
  | some table => (table, "username", "label_id_")
  | none => ("", "", "")

/-- A table of the schema: its name and its column names. -/
structure Table where
  name : String
  columns : List String

/-- SQLite's `name LIKE '%label%'` under the default `case_sensitive_like = OFF`:
the name contains `label`, ASCII letters matching in either case. -/
def likeLabel (name : String) : Bool :=
  containsChars (name.data.map Char.toLower) "label".data

/-- SQLite's comparison of identifiers: equal up to the case of ASCII letters. -/
def sameIdent (a b : String) : Bool :=
  a.data.map Char.toLower == b.data.map Char.toLower

/-- The answers of SQLite for a schema whose tables are listed in `sqlite_master`
order: the lookup by name is exact, `PRAGMA table_info` finds the table by
identifier and answers with no row when there is none, and the wildcard listing
holds the names matching `LIKE '%label%'`.  The data statements answer as in the
empty database. -/
def schemaDB (tables : List Table) : DB :=
  { emptyDB with
    tableInfo := fun t =>
      match tables.find? (fun tb => sameIdent tb.name t) with
      | some tb => .ok (rowsOf tb.columns)
      | none => .ok (rowsOf [])
    masterLookup := fun t =>
      if tables.any (fun tb => tb.name == t) then .row 1 else .noRows
    masterLabelTables :=
      .ok (rowsOf ((tables.filter (fun tb => likeLabel tb.name)).map (fun tb => tb.name))) }

/-- A schema with two named candidates, the first without the label column, and a
wildcard table listed before them. -/
def twoCandidatesSchema : List Table :=
  [⟨"my_labels", ["username", "label_id_"]⟩, ⟨"rcontact_label", ["username", "tag"]⟩,
   ⟨"contact2label", ["UserName", "Label_ID_"]⟩]

/-! ## Properties -/

theorem startsWith_iff (s p : List Char) : startsWith s p = true ↔ p <+: s := by
  induction s generalizing p with
  | nil => cases p <;> simp [startsWith]
  | cons c s ih =>
    cases p with
    | nil => simp [startsWith]
    | cons d p =>
      simp only [startsWith, Bool.and_eq_true, beq_iff_eq, ih, List.cons_prefix_cons]
      constructor
      · rintro ⟨h, h2⟩; exact ⟨h.symm, h2⟩
      · rintro ⟨h, h2⟩; exact ⟨h.symm, h2⟩

theorem containsChars_iff (s sub : List Char) : containsChars s sub = true ↔ sub <:+: s := by
  induction s with
  | nil =>
    unfold containsChars
    simp [startsWith_iff]
  | cons c s ih =>
    unfold containsChars
    simp only [Bool.or_eq_true, startsWith_iff, ih, List.infix_cons_iff]

theorem infix_dropWhile (p : Char → Bool) (c : Char) (sub s : List Char)
    (hc : p c = false) (h : (c :: sub) <:+: s) : (c :: sub) <:+: s.dropWhile p := by
  induction s with
  | nil => simp at h
  | cons x s ih =>
    by_cases hx : p x = true
    · rw [List.dropWhile_cons_of_pos hx]
      rcases List.infix_cons_iff.1 h with h1 | h1
      · have : c = x := by
          have := List.cons_prefix_cons.1 h1
          exact this.1
        subst this; rw [hc] at hx; cases hx
      · exact ih h1
    · rw [List.dropWhile_cons_of_neg hx]; exact h

theorem infix_trimRight (sub s : List Char) (hne : sub ≠ [])
    (hl : ∀ c ∈ sub.getLast?, isSpace c = false) (h : sub <:+: s) : sub <:+: trimRight s := by
  unfold trimRight
  rw [← List.reverse_infix]
  rw [List.reverse_reverse]
  have h2 : sub.reverse <:+: s.reverse := List.reverse_infix.2 h
  cases hr : sub.reverse with
  | nil => simp at hr; exact absurd hr hne
  | cons c r =>
    rw [hr] at h2
    apply infix_dropWhile _ _ _ _ _ h2
    apply hl
    have : sub = (c :: r).reverse := by rw [← hr, List.reverse_reverse]
    rw [this]; simp

theorem infix_trimSpaceChars (sub s : List Char) (hne : sub ≠ [])
    (hf : ∀ c ∈ sub.head?, isSpace c = false)
    (hl : ∀ c ∈ sub.getLast?, isSpace c = false) (h : sub <:+: s) :
    sub <:+: trimSpaceChars s := by
  unfold trimSpaceChars
  apply infix_trimRight _ _ hne hl
  cases sub with
  | nil => exact absurd rfl hne
  | cons c r => exact infix_dropWhile _ _ _ _ (hf c (by simp)) h

theorem trimSpaceChars_within (s : List Char) : trimSpaceChars s <:+: s := by
  unfold trimSpaceChars trimRight
  have h1 : (List.dropWhile isSpace s) <:+: s := (List.dropWhile_suffix _).isInfix
  refine List.IsInfix.trans ?_ h1
  rw [← List.reverse_infix, List.reverse_reverse]
  exact (List.dropWhile_suffix _).isInfix


theorem strContains_iff (s sub : String) : strContains s sub = true ↔ sub.data <:+: s.data :=
  containsChars_iff _ _

theorem toNat_toLower_of_upper (c : Char) (h : 65 ≤ c.toNat ∧ c.toNat ≤ 90) :
    c.toLower.toNat = c.toNat + 32 := by
  have h1 : c.toLower = Char.ofNat (c.toNat + 32) := by
    unfold Char.toLower
    simp only [ge_iff_le]
    rw [if_pos]
    constructor
    · show (65 : Nat) ≤ c.val.toNat; exact h.1
    · show c.val.toNat ≤ 90; exact h.2
  rw [h1]
  have hv : (c.toNat + 32).isValidChar := by
    left; omega
  show (Char.ofNat (c.toNat + 32)).val.toNat = _
  unfold Char.ofNat
  rw [dif_pos hv]
  simp [Char.ofNatAux, UInt32.toNat]

theorem toLower_of_not_upper (c : Char) (h : ¬ (65 ≤ c.toNat ∧ c.toNat ≤ 90)) :
    c.toLower = c := by
  unfold Char.toLower
  simp only [ge_iff_le]
  rw [if_neg]
  intro h2
  exact h ⟨h2.1, h2.2⟩


theorem isSpace_toLowerRune (c : Char) : isSpace (toLowerRune c) = isSpace c := by
  unfold toLowerRune
  by_cases h1 : c.toNat = 0x130
  · rw [if_pos h1]
    have : isSpace c = false := by unfold isSpace; simp only [h1]; decide
    rw [this]; decide
  · rw [if_neg h1]
    by_cases h2 : c.toNat = 0x212A
    · rw [if_pos h2]
      have : isSpace c = false := by unfold isSpace; simp only [h2]; decide
      rw [this]; decide
    · rw [if_neg h2]
      by_cases h3 : 65 ≤ c.toNat ∧ c.toNat ≤ 90
      · have h4 := toNat_toLower_of_upper c h3
        have e1 : isSpace c = false := by
          unfold isSpace
          simp only [Bool.or_eq_false_iff, Bool.and_eq_false_iff, decide_eq_false_iff_not,
            beq_eq_false_iff_ne, ne_eq]
          omega
        have e2 : isSpace c.toLower = false := by
          unfold isSpace
          simp only [h4, Bool.or_eq_false_iff, Bool.and_eq_false_iff, decide_eq_false_iff_not,
            beq_eq_false_iff_ne, ne_eq]
          omega
        rw [e1, e2]
      · rw [toLower_of_not_upper c h3]

theorem dropWhile_map_lower (s : List Char) :
    (s.map toLowerRune).dropWhile isSpace = (s.dropWhile isSpace).map toLowerRune := by
  induction s with
  | nil => rfl
  | cons c s ih =>
    simp only [List.map_cons, List.dropWhile_cons, isSpace_toLowerRune]
    split
    · exact ih
    · simp

theorem trimSpaceChars_map_lower (s : List Char) :
    trimSpaceChars (s.map toLowerRune) = (trimSpaceChars s).map toLowerRune := by
  unfold trimSpaceChars trimRight
  rw [dropWhile_map_lower, ← List.map_reverse, dropWhile_map_lower, List.map_reverse]

theorem contains_trim (s : String) (sub : List Char) (hne : sub ≠ [])
    (hf : ∀ c ∈ sub.head?, isSpace c = false)
    (hl : ∀ c ∈ sub.getLast?, isSpace c = false)
    (h : containsChars s.data sub = true) :
    containsChars (trimSpace s).data sub = true := by
  rw [containsChars_iff] at h ⊢
  exact infix_trimSpaceChars sub s.data hne hf hl h

theorem trimSpace_ne_empty_of_contains (s : String) (sub : List Char) (hne : sub ≠ [])
    (h : containsChars (trimSpace s).data sub = true) : trimSpace s ≠ "" := by
  intro he
  rw [he, containsChars_iff] at h
  have : sub = [] := by simpa using h
  exact hne this

/-- A value containing the marker is recognised. -/
theorem looksLikeClient_of_marker (v : String) (h : strContains v "客户" = true) :
    looksLikeClient v = true := by
  have h1 : strContains (trimSpace v) "客户" = true :=
    contains_trim v _ (by decide) (by decide) (by decide) h
  have h2 : trimSpace v ≠ "" := trimSpace_ne_empty_of_contains v _ (by decide) h1
  unfold looksLikeClient
  simp only [h2, if_false, h1, if_true]

theorem toLower_trimSpace (v : String) : toLower (trimSpace v) = trimSpace (toLower v) := by
  unfold toLower trimSpace
  simp only [trimSpaceChars_map_lower]

/-- A value whose lower-case form contains `customer` is recognised. -/
theorem looksLikeClient_of_customer (v : String) (h : strContains (toLower v) "customer" = true) :
    looksLikeClient v = true := by
  have h1 : strContains (trimSpace (toLower v)) "customer" = true :=
    contains_trim (toLower v) _ (by decide) (by decide) (by decide) h
  rw [← toLower_trimSpace] at h1
  have h2 : trimSpace v ≠ "" := by
    intro he
    rw [he] at h1
    revert h1; decide
  unfold looksLikeClient
  simp only [h2, if_false, h1, if_true]
  split <;> [rfl; (split <;> [rfl; (split <;> rfl)])]

theorem dedupLoop_spec (seen vs : List String) :
    (dedupLoop seen vs).Nodup ∧ ∀ x ∈ dedupLoop seen vs, x ∉ seen ∧ x ∈ vs := by
  induction vs generalizing seen with
  | nil => simp [dedupLoop]
  | cons v vs ih =>
    unfold dedupLoop
    by_cases h : v ∈ seen
    · rw [if_pos h]
      refine ⟨(ih seen).1, fun x hx => ?_⟩
      have := (ih seen).2 x hx
      exact ⟨this.1, List.mem_cons_of_mem _ this.2⟩
    · rw [if_neg h]
      have ih2 := ih (v :: seen)
      refine ⟨List.nodup_cons.2 ⟨?_, ih2.1⟩, fun x hx => ?_⟩
      · intro hv
        exact (ih2.2 v hv).1 (List.mem_cons_self _ _)
      · rcases List.mem_cons.1 hx with rfl | hx
        · exact ⟨h, List.mem_cons_self _ _⟩
        · have := ih2.2 x hx
          exact ⟨fun hs => this.1 (List.mem_cons_of_mem _ hs), List.mem_cons_of_mem _ this.2⟩

theorem dedup_nodup (vs : List String) : (dedup vs).Nodup := (dedupLoop_spec [] vs).1

theorem get_push (m : LinkMap) (u n v : String) :
    (LinkMap.push m u n).get v
      = if v = u then some ((m.get u).getD [] ++ [n]) else m.get v := by
  induction m with
  | nil =>
    simp only [LinkMap.push, LinkMap.get]
    by_cases h : v = u
    · subst h; simp
    · have h' : ¬ u = v := fun e => h e.symm
      simp [h, h']
  | cons p m ih =>
    obtain ⟨k, ns⟩ := p
    simp only [LinkMap.push]
    by_cases hk : k = u
    · subst hk
      simp only [if_true, LinkMap.get]
      by_cases h : v = k
      · subst h; simp
      · have h' : ¬ k = v := fun e => h e.symm
        simp [h, h']
    · simp only [hk, if_false, LinkMap.get]
      by_cases h : k = v
      · subst h
        have : ¬ k = u := hk
        simp [this]
      · simp only [h, if_false, ih]

theorem push_ne_nil (m : LinkMap) (u n : String) : LinkMap.push m u n ≠ [] := by
  cases m with
  | nil => simp [LinkMap.push]
  | cons p m =>
    obtain ⟨k, ns⟩ := p
    simp only [LinkMap.push]
    split <;> simp

theorem pushAll_nil (m : LinkMap) : pushAll m [] = m := rfl

theorem pushAll_cons (m : LinkMap) (p : String × String) (ps : List (String × String)) :
    pushAll m (p :: ps) = pushAll (m.push p.1 p.2) ps := rfl

theorem pushAll_append (m : LinkMap) (ps qs : List (String × String)) :
    pushAll m (ps ++ qs) = pushAll (pushAll m ps) qs := by
  unfold pushAll; rw [List.foldl_append]

theorem pushAll_eq_nil (m : LinkMap) (ps : List (String × String)) :
    pushAll m ps = [] ↔ m = [] ∧ ps = [] := by
  induction ps generalizing m with
  | nil => simp [pushAll_nil]
  | cons p ps ih =>
    rw [pushAll_cons, ih]
    simp [push_ne_nil]

/-- The names filed under `v` in a list of associations. -/
theorem get_pushAll (m : LinkMap) (ps : List (String × String)) (v : String) :
    (pushAll m ps).get v
      = if (ps.filter (fun p => decide (p.1 = v))) = [] then m.get v
        else some ((m.get v).getD [] ++ (ps.filter (fun p => decide (p.1 = v))).map Prod.snd) := by
  induction ps generalizing m with
  | nil => simp [pushAll_nil]
  | cons p ps ih =>
    obtain ⟨a, b⟩ := p
    rw [pushAll_cons, ih, get_push]
    by_cases h : a = v
    · subst h
      simp only [List.filter_cons, decide_True, if_true]
      by_cases hf : List.filter (fun q => decide (q.1 = a)) ps = []
      · simp [hf]
      · simp [hf]
    · have hv : ¬ v = a := fun e => h e.symm
      simp only [List.filter_cons, h, decide_False, hv, if_false]
      simp

theorem isDigit_iff (c : Char) : c.isDigit = true ↔ 48 ≤ c.toNat ∧ c.toNat ≤ 57 := by
  unfold Char.isDigit
  simp only [ge_iff_le, Bool.and_eq_true, decide_eq_true_eq]
  have e1 : ((48 : UInt32) ≤ c.val) ↔ 48 ≤ c.toNat := by
    show ((48 : UInt32).toNat ≤ c.val.toNat) ↔ _
    rfl
  have e2 : (c.val ≤ (57 : UInt32)) ↔ c.toNat ≤ 57 := by
    show (c.val.toNat ≤ (57 : UInt32).toNat) ↔ _
    rfl
  rw [e1, e2]

theorem char_eq_of_toNat (c d : Char) (h : c.toNat = d.toNat) : c = d := by
  apply Char.ext
  apply UInt32.ext
  exact h

theorem isSpace_of_digit (c : Char) (h : c.isDigit = true) : isSpace c = false := by
  rw [isDigit_iff] at h
  unfold isSpace
  simp only [Bool.or_eq_false_iff, Bool.and_eq_false_iff, decide_eq_false_iff_not,
    beq_eq_false_iff_ne, ne_eq]
  omega

theorem ne_of_digit (c d : Char) (h : c.isDigit = true) (hd : d.isDigit = false) : c ≠ d := by
  intro e; subst e; rw [h] at hd; cases hd

theorem splitComma_ne_nil (s : List Char) : splitComma s ≠ [] := by
  induction s with
  | nil => simp [splitComma]
  | cons c s ih =>
    unfold splitComma
    split
    · simp
    · split <;> simp

theorem splitComma_plain (t : List Char) (h : ',' ∉ t) : splitComma t = [t] := by
  induction t with
  | nil => rfl
  | cons c t ih =>
    have hc : c ≠ ',' := fun e => h (e ▸ List.mem_cons_self _ _)
    have ht : ',' ∉ t := fun e => h (List.mem_cons_of_mem _ e)
    unfold splitComma
    rw [if_neg hc, ih ht]

theorem splitComma_append (t rest : List Char) (h : ',' ∉ t) :
    splitComma (t ++ ',' :: rest) = t :: splitComma rest := by
  induction t with
  | nil => simp [splitComma]
  | cons c t ih =>
    have hc : c ≠ ',' := fun e => h (e ▸ List.mem_cons_self _ _)
    have ht : ',' ∉ t := fun e => h (List.mem_cons_of_mem _ e)
    rw [List.cons_append]
    conv_lhs => unfold splitComma
    rw [if_neg hc, ih ht]

theorem intercalate_cons_cons (sep t t' : List Char) (ts : List (List Char)) :
    List.intercalate sep (t :: t' :: ts) = t ++ sep ++ List.intercalate sep (t' :: ts) := by
  simp [List.intercalate, List.intersperse]

theorem splitComma_intercalate (toks : List (List Char)) (hne : toks ≠ [])
    (h : ∀ t ∈ toks, ',' ∉ t) : splitComma (List.intercalate [','] toks) = toks := by
  induction toks with
  | nil => exact absurd rfl hne
  | cons t ts ih =>
    cases ts with
    | nil =>
      have : List.intercalate [','] [t] = t := by simp [List.intercalate, List.intersperse]
      rw [this]
      exact splitComma_plain t (h t (List.mem_cons_self _ _))
    | cons t' ts =>
      rw [intercalate_cons_cons, List.append_assoc]
      have : [','] ++ List.intercalate [','] (t' :: ts) = ',' :: List.intercalate [','] (t' :: ts) := rfl
      rw [this, splitComma_append _ _ (h t (List.mem_cons_self _ _))]
      rw [ih (by simp) (fun x hx => h x (List.mem_cons_of_mem _ hx))]

theorem dropWhile_eq_self_of_head (p : Char → Bool) (t : List Char)
    (h : ∀ c ∈ t.head?, p c = false) : t.dropWhile p = t := by
  cases t with
  | nil => rfl
  | cons c t =>
    have := h c (by simp)
    simp [List.dropWhile_cons, this]

theorem trimSpaceChars_digits (t : List Char) (h : ∀ c ∈ t, c.isDigit = true) :
    trimSpaceChars t = t := by
  unfold trimSpaceChars trimRight
  rw [dropWhile_eq_self_of_head isSpace t (fun c hc => isSpace_of_digit c (h c (List.mem_of_mem_head? hc)))]
  rw [dropWhile_eq_self_of_head isSpace t.reverse (fun c hc =>
    isSpace_of_digit c (h c (List.mem_reverse.1 (List.mem_of_mem_head? hc))))]
  exact List.reverse_reverse t

theorem takeWhile_eq_self (p : Char → Bool) (t : List Char) (h : ∀ c ∈ t, p c = true) :
    t.takeWhile p = t := by
  induction t with
  | nil => rfl
  | cons c t ih =>
    rw [List.takeWhile_cons, h c (List.mem_cons_self _ _)]
    simp only [if_true]
    rw [ih (fun x hx => h x (List.mem_cons_of_mem _ hx))]

theorem sscanfInt_digits (t : List Char) (hne : t ≠ []) (h : ∀ c ∈ t, c.isDigit = true)
    (hv : decimalValue t < 2 ^ 63) : sscanfInt t = some (decimalValue t : Int) := by
  cases t with
  | nil => exact absurd rfl hne
  | cons c r =>
    have hc := h c (List.mem_cons_self _ _)
    have h1 : c ≠ '+' := ne_of_digit c _ hc (by decide)
    have h2 : c ≠ '-' := ne_of_digit c _ hc (by decide)
    have htk : (c :: r).takeWhile isNumberRune = c :: r :=
      takeWhile_eq_self _ _ (fun x hx => by simp [isNumberRune, h x hx])
    have hany : (c :: r).any (fun x => x == '_') = false := by
      rw [List.any_eq_false]
      intro x hx
      have := ne_of_digit x '_' (h x hx) (by decide)
      simpa using this
    unfold sscanfInt
    split
    · rename_i heq; injection heq with e1 e2; exact absurd e1 h1
    · rename_i heq; injection heq with e1 e2; exact absurd e1 h2
    · have hv' : decimalValue (c :: r) < 9223372036854775808 := by
        have : (2 : Nat) ^ 63 = 9223372036854775808 := by norm_num
        omega
      simp only [htk, hany]
      simp [hv']

theorem parseID_digits (t : List Char) (hne : t ≠ []) (h : ∀ c ∈ t, c.isDigit = true)
    (hpos : 0 < decimalValue t) (hv : decimalValue t < 2 ^ 63) :
    parseID t = some (decimalValue t : Int) := by
  unfold parseID
  simp only [trimSpaceChars_digits t h, hne, if_false, sscanfInt_digits t hne h hv]
  simp [hpos]

theorem splitIDs_intercalate (toks : List (List Char)) (hne : toks ≠ [])
    (h : ∀ t ∈ toks, t ≠ [] ∧ (∀ c ∈ t, c.isDigit = true) ∧
      0 < decimalValue t ∧ decimalValue t < 2 ^ 63) :
    splitIDs ⟨List.intercalate [','] toks⟩ = toks.map (fun t => (decimalValue t : Int)) := by
  unfold splitIDs
  simp only
  rw [splitComma_intercalate toks hne (fun t ht hc => by
    have := (h t ht).2.1 ',' hc
    revert this; decide)]
  clear hne
  induction toks with
  | nil => rfl
  | cons t ts ih =>
    obtain ⟨a, b, c, d⟩ := h t (List.mem_cons_self _ _)
    rw [List.filterMap_cons, parseID_digits t a b c d]
    simp only [List.map_cons]
    rw [ih (fun x hx => h x (List.mem_cons_of_mem _ hx))]

theorem trimSpace_intercalate_ne (toks : List (List Char)) (hne : toks ≠ [])
    (h : ∀ t ∈ toks, t ≠ [] ∧ (∀ c ∈ t, c.isDigit = true)) :
    trimSpace ⟨List.intercalate [','] toks⟩ ≠ "" := by
  cases toks with
  | nil => exact absurd rfl hne
  | cons t ts =>
    obtain ⟨h1, h2⟩ := h t (List.mem_cons_self _ _)
    cases t with
    | nil => exact absurd rfl h1
    | cons c r =>
      have hc : isSpace c = false := isSpace_of_digit c (h2 c (List.mem_cons_self _ _))
      intro he
      have hd : (trimSpace ⟨List.intercalate [','] ((c :: r) :: ts)⟩).data = [] := by rw [he]
      have hin : [c] <:+: trimSpaceChars (List.intercalate [','] ((c :: r) :: ts)) := by
        have hx : ∀ x : Char, x = c → isSpace x = false := fun x e => e ▸ hc
        apply infix_trimSpaceChars [c] _ (by simp)
          (fun x hx' => hx x (by simpa using hx'.symm))
          (fun x hx' => hx x (by simpa using hx'.symm))
        cases ts with
        | nil =>
          have e : List.intercalate [','] [c :: r] = c :: r := by
            simp [List.intercalate, List.intersperse]
          rw [e]
          exact ⟨[], r, rfl⟩
        | cons t' ts =>
          rw [intercalate_cons_cons]
          exact ⟨[], r ++ [','] ++ List.intercalate [','] (t' :: ts), by simp⟩
      unfold trimSpace at hd
      simp only at hd
      rw [hd] at hin
      simp at hin

theorem addLabel_eq (lm : LabelMap) (u : String) (link : LinkMap) (id : Int) :
    addLabel lm u link id = pushAll link ((resolveName lm id).toList.map (fun n => (u, n))) := by
  unfold addLabel resolveName
  cases h : lm.get id with
  | none => simp [pushAll]
  | some name =>
    by_cases hn : name = ""
    · simp [hn, pushAll]
    · simp [hn, pushAll]

theorem foldl_addLabel (lm : LabelMap) (u : String) (ids : List Int) (link : LinkMap) :
    ids.foldl (addLabel lm u) link
      = pushAll link ((ids.filterMap (resolveName lm)).map (fun n => (u, n))) := by
  induction ids generalizing link with
  | nil => rfl
  | cons id ids ih =>
    rw [List.foldl_cons, ih, addLabel_eq, ← pushAll_append]
    congr 1
    cases h : resolveName lm id <;> simp [List.filterMap_cons, h]

theorem values_ok_cons {α : Type} (a : α) (items : List (Except String α)) (err : Option String) :
    (Rows.mk (Except.ok a :: items) err).values = a :: (Rows.mk items err).values := rfl

theorem inlineEvidence_cons (lm : LabelMap) (r : String × Option String)
    (vs : List (String × Option String)) :
    inlineEvidence lm (r :: vs)
      = (namesOfRaw lm r.2).map (fun name => (r.1, name)) ++ inlineEvidence lm vs := by
  simp [inlineEvidence]

theorem idListLoop_clean (lm : LabelMap) (items : List (Except String (String × Option String)))
    (link : LinkMap) (h : ∀ x ∈ items, ∃ a, x = Except.ok a) :
    idListLoop lm none items link
      = .ok (pushAll link (inlineEvidence lm (Rows.mk items none).values)) := by
  induction items generalizing link with
  | nil => rfl
  | cons x items ih =>
    obtain ⟨a, rfl⟩ := h x (List.mem_cons_self _ _)
    have ih' := fun l => ih l (fun y hy => h y (List.mem_cons_of_mem _ hy))
    obtain ⟨u, raw⟩ := a
    rw [values_ok_cons, inlineEvidence_cons, pushAll_append]
    cases raw with
    | none =>
      simp only [idListLoop, namesOfRaw, List.map_nil, pushAll_nil]
      exact ih' link
    | some s =>
      by_cases hs : trimSpace s = ""
      · simp only [idListLoop, namesOfRaw, hs, if_true, List.map_nil, pushAll_nil]
        exact ih' link
      · simp only [idListLoop, namesOfRaw, hs, if_false]
        rw [ih', foldl_addLabel]

theorem idListLoop_ok (lm : LabelMap) (err : Option String)
    (items : List (Except String (String × Option String))) (link link' : LinkMap)
    (h : idListLoop lm err items link = .ok link') :
    (∀ x ∈ items, ∃ a, x = Except.ok a) ∧ err = none := by
  induction items generalizing link with
  | nil =>
    cases err with
    | none => simp
    | some e => simp [idListLoop] at h
  | cons x items ih =>
    cases x with
    | error e => simp [idListLoop] at h
    | ok a =>
      obtain ⟨u, raw⟩ := a
      have key : ∃ l, idListLoop lm err items l = .ok link' := by
        cases raw with
        | none => exact ⟨link, by simpa [idListLoop] using h⟩
        | some s =>
          by_cases hs : trimSpace s = ""
          · exact ⟨link, by simpa [idListLoop, hs] using h⟩
          · exact ⟨_, by simpa [idListLoop, hs] using h⟩
      obtain ⟨l, hl⟩ := key
      have := ih l hl
      refine ⟨?_, this.2⟩
      intro y hy
      rcases List.mem_cons.1 hy with rfl | hy
      · exact ⟨_, rfl⟩
      · exact this.1 y hy

theorem linkEvidence_cons (lm : LabelMap) (r : String × Int) (vs : List (String × Int)) :
    linkEvidence lm (r :: vs)
      = (resolveName lm r.2).toList.map (fun name => (r.1, name)) ++ linkEvidence lm vs := by
  unfold linkEvidence
  cases h : resolveName lm r.2 <;> simp [List.filterMap_cons, h]

theorem linkRowsLoop_clean (lm : LabelMap) (items : List (Except String (String × Int)))
    (link : LinkMap) (h : ∀ x ∈ items, ∃ a, x = Except.ok a) :
    linkRowsLoop lm none items link
      = .ok (pushAll link (linkEvidence lm (Rows.mk items none).values)) := by
  induction items generalizing link with
  | nil => rfl
  | cons x items ih =>
    obtain ⟨a, rfl⟩ := h x (List.mem_cons_self _ _)
    have ih' := fun l => ih l (fun y hy => h y (List.mem_cons_of_mem _ hy))
    obtain ⟨u, id⟩ := a
    rw [values_ok_cons, linkEvidence_cons, pushAll_append]
    simp only [linkRowsLoop]
    rw [ih', addLabel_eq]

theorem linkRowsLoop_ok (lm : LabelMap) (err : Option String)
    (items : List (Except String (String × Int))) (link link' : LinkMap)
    (h : linkRowsLoop lm err items link = .ok link') :
    (∀ x ∈ items, ∃ a, x = Except.ok a) ∧ err = none := by
  induction items generalizing link with
  | nil =>
    cases err with
    | none => simp
    | some e => simp [linkRowsLoop] at h
  | cons x items ih =>
    cases x with
    | error e => simp [linkRowsLoop] at h
    | ok a =>
      obtain ⟨u, id⟩ := a
      simp only [linkRowsLoop] at h
      have := ih _ h
      refine ⟨?_, this.2⟩
      intro y hy
      rcases List.mem_cons.1 hy with rfl | hy
      · exact ⟨_, rfl⟩
      · exact this.1 y hy

theorem rows_eta {α : Type} (rows : Rows α) (h : rows.err = none) :
    Rows.mk rows.items none = rows := by
  cases rows; simp at h; subst h; rfl

/-- A successful row loop over the contact table: the rows are clean and the mapping
is the one their evidence builds. -/
theorem idListLoop_rows (lm : LabelMap) (rows : Rows (String × Option String))
    (link link' : LinkMap) (h : idListLoop lm rows.err rows.items link = .ok link') :
    rows.Clean ∧ link' = pushAll link (inlineEvidence lm rows.values) := by
  have hc := idListLoop_ok lm _ _ _ _ h
  refine ⟨hc, ?_⟩
  rw [hc.2, idListLoop_clean lm _ _ hc.1, rows_eta rows hc.2] at h
  injection h with h
  exact h.symm

theorem linkRowsLoop_rows (lm : LabelMap) (rows : Rows (String × Int))
    (link link' : LinkMap) (h : linkRowsLoop lm rows.err rows.items link = .ok link') :
    rows.Clean ∧ link' = pushAll link (linkEvidence lm rows.values) := by
  have hc := linkRowsLoop_ok lm _ _ _ _ h
  refine ⟨hc, ?_⟩
  rw [hc.2, linkRowsLoop_clean lm _ _ hc.1, rows_eta rows hc.2] at h
  injection h with h
  exact h.symm

theorem idListLoop_of_clean (lm : LabelMap) (rows : Rows (String × Option String))
    (link : LinkMap) (h : rows.Clean) :
    idListLoop lm rows.err rows.items link = .ok (pushAll link (inlineEvidence lm rows.values)) := by
  rw [h.2, idListLoop_clean lm _ _ h.1, rows_eta rows h.2]

theorem linkRowsLoop_of_clean (lm : LabelMap) (rows : Rows (String × Int))
    (link : LinkMap) (h : rows.Clean) :
    linkRowsLoop lm rows.err rows.items link = .ok (pushAll link (linkEvidence lm rows.values)) := by
  rw [h.2, linkRowsLoop_clean lm _ _ h.1, rows_eta rows h.2]

theorem inlineTier_of_rows (db : DB) (lm : LabelMap) (rows : Rows (String × Option String))
    (hcol : columnExists db "contact" "LabelIDList" = .ok true)
    (hrows : db.selectLabelIDList = .ok rows) :
    inlineTier db lm = idListLoop lm rows.err rows.items [] := by
  unfold inlineTier
  simp only [hcol, hrows, if_true]

/-- A successful inline-list tier leaves the mapping empty or built from the clean
rows of the contact table. -/
theorem inlineTier_ok_cases (db : DB) (lm : LabelMap) (link : LinkMap)
    (h : inlineTier db lm = .ok link) :
    link = [] ∨ (columnExists db "contact" "LabelIDList" = .ok true ∧
      ∃ rows, db.selectLabelIDList = .ok rows ∧ rows.Clean ∧
        link = pushAll [] (inlineEvidence lm rows.values)) := by
  unfold inlineTier at h
  cases hcol : columnExists db "contact" "LabelIDList" with
  | error e =>
    rw [hcol] at h
    simp only at h
    split at h
    · cases h
    · simp at h; exact Or.inl h
  | ok b =>
    rw [hcol] at h
    cases b with
    | false => simp at h; exact Or.inl h
    | true =>
      simp only [if_true] at h
      cases hrows : db.selectLabelIDList with
      | error e =>
        rw [hrows] at h
        simp only at h
        split at h
        · cases h
        · injection h with h; exact Or.inl h.symm
      | ok rows =>
        rw [hrows] at h
        simp only at h
        have := idListLoop_rows lm rows [] link h
        exact Or.inr ⟨rfl, rows, rfl, this.1, this.2⟩

theorem linkTableTier_of_ne (db : DB) (lm : LabelMap) (link : LinkMap) (h : link ≠ []) :
    linkTableTier db lm link = .ok link := by
  unfold linkTableTier
  have : ¬ link.length = 0 := by simpa using h
  rw [if_neg this]

theorem linkTableTier_of_rows (db : DB) (lm : LabelMap) (tbl userCol labelCol : String)
    (rows : Rows (String × Int))
    (hdet : detectLinkTable db = .ok (tbl, userCol, labelCol)) (htbl : tbl ≠ "")
    (hrows : db.selectLink userCol labelCol tbl = .ok rows) :
    linkTableTier db lm [] = linkRowsLoop lm rows.err rows.items [] := by
  unfold linkTableTier
  simp only [List.length_nil, if_true, hdet, htbl, ne_eq, not_false_eq_true, hrows]

/-- A successful link-table tier entered with the empty mapping leaves it empty or
built from the clean rows of the detected table. -/
theorem linkTableTier_ok_cases (db : DB) (lm : LabelMap) (link : LinkMap)
    (h : linkTableTier db lm [] = .ok link) :
    link = [] ∨ ∃ tbl userCol labelCol rows,
      detectLinkTable db = .ok (tbl, userCol, labelCol) ∧ tbl ≠ "" ∧
      db.selectLink userCol labelCol tbl = .ok rows ∧ rows.Clean ∧
      link = pushAll [] (linkEvidence lm rows.values) := by
  unfold linkTableTier at h
  simp only [List.length_nil, if_true] at h
  cases hdet : detectLinkTable db with
  | error e => rw [hdet] at h; cases h
  | ok found =>
    obtain ⟨tbl, userCol, labelCol⟩ := found
    rw [hdet] at h
    simp only at h
    by_cases htbl : tbl = ""
    · simp [htbl] at h; exact Or.inl h
    · simp only [ne_eq, htbl, not_false_eq_true, if_true] at h
      cases hrows : db.selectLink userCol labelCol tbl with
      | error e =>
        rw [hrows] at h
        simp only at h
        split at h
        · cases h
        · injection h with h; exact Or.inl h.symm
      | ok rows =>
        rw [hrows] at h
        simp only at h
        have := linkRowsLoop_rows lm rows [] link h
        exact Or.inr ⟨tbl, userCol, labelCol, rows, rfl, htbl, hrows, this.1, this.2⟩

theorem fill_nil (db : DB) : fillContactLabelsV4 db [] = ([], none) := rfl

theorem fill_of_error (db : DB) (cs : List ContactV4) (e : String) (hcs : cs ≠ [])
    (h : collectLink db = .error e) : fillContactLabelsV4 db cs = (cs, some e) := by
  unfold fillContactLabelsV4
  have : ¬ cs.length = 0 := by simpa using hcs
  rw [if_neg this, h]

theorem fill_of_link (db : DB) (cs : List ContactV4) (link : LinkMap) (hcs : cs ≠ [])
    (h : collectLink db = .ok link) (hne : link ≠ []) :
    fillContactLabelsV4 db cs = (annotate link cs, none) := by
  unfold fillContactLabelsV4
  have h1 : ¬ cs.length = 0 := by simpa using hcs
  have h2 : ¬ link.length = 0 := by simpa using hne
  rw [if_neg h1, h]
  simp only [h2, if_false]

theorem fill_of_nolink (db : DB) (cs : List ContactV4) (hcs : cs ≠ [])
    (h : collectLink db = .ok []) :
    fillContactLabelsV4 db cs = heuristicTier db cs := by
  unfold fillContactLabelsV4
  have h1 : ¬ cs.length = 0 := by simpa using hcs
  rw [if_neg h1, h]
  simp

/-- The heuristic tier either returns before its loop, leaving the contacts as they
are, or runs its loop. -/
theorem heuristicTier_cases (db : DB) (cs : List ContactV4) :
    (∃ e, heuristicTier db cs = (cs, some e)) ∨
      heuristicTier db cs = heuristicLoop db (hasDescStmt db) cs := by
  unfold heuristicTier hasDescStmt
  cases hcol : columnExists db "contact" "description" with
  | error e =>
    simp only
    split
    · exact Or.inl ⟨_, rfl⟩
    · right; simp
  | ok b =>
    cases b with
    | false => right; simp
    | true =>
      simp only [if_true]
      cases hp : db.prepareDescription with
      | none => right; simp
      | some e =>
        simp only
        split
        · exact Or.inl ⟨_, rfl⟩
        · right; simp

theorem appended_refl (c : ContactV4) : Appended c c :=
  ⟨rfl, rfl, [], by simp, List.nodup_nil⟩

theorem appended_markClient (c : ContactV4) : Appended c (markClient c) :=
  ⟨rfl, rfl, ["客户"], rfl, by simp⟩

theorem forall₂_refl_appended (cs : List ContactV4) : List.Forall₂ Appended cs cs :=
  List.forall₂_same.2 (fun c _ => appended_refl c)

/-- The loop of the heuristic tier, whatever its outcome: a contact is left as it is
or, when the heuristic marks it, gets the synthetic label. -/
theorem heuristicLoop_general (db : DB) (hs : Bool) (cs : List ContactV4) :
    List.Forall₂ (fun c c' => c' = c ∨ (heuristicMarks db hs c = true ∧ c' = markClient c))
      cs (heuristicLoop db hs cs).1 := by
  induction cs with
  | nil => exact List.Forall₂.nil
  | cons c rest ih =>
    unfold heuristicLoop
    by_cases h1 : looksLikeClient c.Remark = true
    · simp only [h1, if_true]
      exact List.Forall₂.cons (Or.inr ⟨by simp [heuristicMarks, h1], rfl⟩) ih
    · simp only [h1, if_false]
      cases hs with
      | false =>
        simp only [Bool.false_eq_true, if_false]
        exact List.Forall₂.cons (Or.inl rfl) ih
      | true =>
        simp only [if_true]
        cases hq : db.queryDescription c.UserName with
        | failed msg =>
          simp only
          exact List.forall₂_same.2 (fun x _ => Or.inl rfl)
        | noRows => exact List.Forall₂.cons (Or.inl rfl) ih
        | row d =>
          cases d with
          | none => exact List.Forall₂.cons (Or.inl rfl) ih
          | some d =>
            simp only
            by_cases h2 : looksLikeClient d = true
            · simp only [h2, if_true]
              exact List.Forall₂.cons (Or.inr ⟨by simp [heuristicMarks, hq, h2], rfl⟩) ih
            · simp only [h2, if_false]
              exact List.Forall₂.cons (Or.inl rfl) ih

/-- The loop of the heuristic tier when it returns no error: every contact the
heuristic marks gets the synthetic label, every other is left as it is. -/
theorem heuristicLoop_success (db : DB) (hs : Bool) (cs : List ContactV4)
    (hok : (heuristicLoop db hs cs).2 = none) :
    List.Forall₂ (fun c c' => c' = if heuristicMarks db hs c = true then markClient c else c)
      cs (heuristicLoop db hs cs).1 := by
  induction cs with
  | nil => exact List.Forall₂.nil
  | cons c rest ih =>
    unfold heuristicLoop at hok ⊢
    by_cases h1 : looksLikeClient c.Remark = true
    · simp only [h1, if_true] at hok ⊢
      exact List.Forall₂.cons (by simp [heuristicMarks, h1]) (ih hok)
    · simp only [h1, if_false] at hok ⊢
      have h1' : looksLikeClient c.Remark = false := by simpa using h1
      cases hs with
      | false =>
        simp only [Bool.false_eq_true, if_false] at hok ⊢
        exact List.Forall₂.cons (by simp [heuristicMarks, h1']) (ih hok)
      | true =>
        simp only [if_true] at hok ⊢
        cases hq : db.queryDescription c.UserName with
        | failed msg => rw [hq] at hok; simp at hok
        | noRows =>
          rw [hq] at hok
          exact List.Forall₂.cons (by simp [heuristicMarks, h1', hq]) (ih hok)
        | row d =>
          rw [hq] at hok
          cases d with
          | none => exact List.Forall₂.cons (by simp [heuristicMarks, h1', hq]) (ih hok)
          | some d =>
            simp only at hok ⊢
            by_cases h2 : looksLikeClient d = true
            · simp only [h2, if_true] at hok ⊢
              exact List.Forall₂.cons (by simp [heuristicMarks, hq, h2]) (ih hok)
            · simp only [h2, if_false] at hok ⊢
              have h2' : looksLikeClient d = false := by simpa using h2
              exact List.Forall₂.cons (by simp [heuristicMarks, h1', hq, h2']) (ih hok)

theorem annotateOne_appended (link : LinkMap) (c : ContactV4) : Appended c (annotateOne link c) := by
  unfold annotateOne
  cases link.get c.UserName with
  | none => exact appended_refl c
  | some names =>
    simp only
    split
    · exact ⟨rfl, rfl, dedup names, rfl, dedup_nodup names⟩
    · exact appended_refl c

theorem forall₂_map_of_forall {R : ContactV4 → ContactV4 → Prop} (f : ContactV4 → ContactV4)
    (cs : List ContactV4) (h : ∀ c ∈ cs, R c (f c)) : List.Forall₂ R cs (cs.map f) := by
  induction cs with
  | nil => exact List.Forall₂.nil
  | cons c cs ih =>
    exact List.Forall₂.cons (h c (List.mem_cons_self _ _))
      (ih (fun x hx => h x (List.mem_cons_of_mem _ hx)))

theorem heuristicTier_appended (db : DB) (cs : List ContactV4) :
    List.Forall₂ Appended cs (heuristicTier db cs).1 := by
  rcases heuristicTier_cases db cs with ⟨e, h⟩ | h
  · rw [h]; exact forall₂_refl_appended cs
  · rw [h]
    refine (heuristicLoop_general db _ cs).imp ?_
    rintro c c' (rfl | ⟨_, rfl⟩)
    · exact appended_refl _
    · exact appended_markClient c

/-- Whatever the outcome, each contact keeps its identifier and remark and gets names
without repetition appended. -/
theorem fill_appended (db : DB) (cs : List ContactV4) :
    List.Forall₂ Appended cs (fillContactLabelsV4 db cs).1 := by
  by_cases hcs : cs = []
  · subst hcs; exact List.Forall₂.nil
  cases h : collectLink db with
  | error e => rw [fill_of_error db cs e hcs h]; exact forall₂_refl_appended cs
  | ok link =>
    by_cases hl : link = []
    · subst hl
      rw [fill_of_nolink db cs hcs h]
      exact heuristicTier_appended db cs
    · rw [fill_of_link db cs link hcs h hl]
      exact forall₂_map_of_forall _ cs (fun c _ => annotateOne_appended link c)

theorem evidence_filter_inline (lm : LabelMap) (vs : List (String × Option String)) (u : String) :
    ((inlineEvidence lm vs).filter (fun p => decide (p.1 = u))).map Prod.snd
      = (vs.filter (fun r => decide (r.1 = u))).flatMap (fun r => namesOfRaw lm r.2) := by
  induction vs with
  | nil => rfl
  | cons r vs ih =>
    rw [inlineEvidence_cons, List.filter_append, List.map_append, ih]
    by_cases h : r.1 = u
    · have : List.filter (fun p : String × String => decide (p.1 = u))
          ((namesOfRaw lm r.2).map (fun name => (r.1, name)))
          = (namesOfRaw lm r.2).map (fun name => (r.1, name)) := by
        rw [List.filter_eq_self]
        intro p hp
        obtain ⟨n, _, rfl⟩ := List.mem_map.1 hp
        simpa using h
      rw [this]
      simp [List.filter_cons, h, Function.comp_def]
    · have : List.filter (fun p : String × String => decide (p.1 = u))
          ((namesOfRaw lm r.2).map (fun name => (r.1, name))) = [] := by
        rw [List.filter_eq_nil_iff]
        intro p hp
        obtain ⟨n, _, rfl⟩ := List.mem_map.1 hp
        simpa using h
      rw [this]
      simp [List.filter_cons, h]

theorem evidence_filter_link (lm : LabelMap) (vs : List (String × Int)) (u : String) :
    ((linkEvidence lm vs).filter (fun p => decide (p.1 = u))).map Prod.snd
      = (vs.filter (fun r => decide (r.1 = u))).filterMap (fun r => resolveName lm r.2) := by
  induction vs with
  | nil => rfl
  | cons r vs ih =>
    rw [linkEvidence_cons, List.filter_append, List.map_append, ih]
    by_cases h : r.1 = u
    · cases hr : resolveName lm r.2 <;> simp [List.filter_cons, h, hr, List.filterMap_cons]
    · cases hr : resolveName lm r.2 <;> simp [List.filter_cons, h, hr]

theorem annotateOne_pushAll (ev : List (String × String)) (c : ContactV4) (names : List String)
    (h : ((ev.filter (fun p => decide (p.1 = c.UserName))).map Prod.snd) = names)
    (hne : names ≠ []) :
    (annotateOne (pushAll [] ev) c).Labels = c.Labels ++ dedup names := by
  have hf : ev.filter (fun p => decide (p.1 = c.UserName)) ≠ [] := by
    intro e; rw [e] at h; exact hne h.symm
  unfold annotateOne
  rw [get_pushAll, if_neg hf, h]
  have : (LinkMap.get [] c.UserName).getD [] = [] := rfl
  rw [this, List.nil_append]
  have hl : names.length > 0 := List.length_pos.2 hne
  simp only [hl, if_true]

theorem annotateOne_pushAll_nil (ev : List (String × String)) (c : ContactV4)
    (h : ((ev.filter (fun p => decide (p.1 = c.UserName))).map Prod.snd) = []) :
    annotateOne (pushAll [] ev) c = c := by
  have hf : ev.filter (fun p => decide (p.1 = c.UserName)) = [] := by simpa using h
  unfold annotateOne
  rw [get_pushAll, if_pos hf]
  rfl

theorem get_pushAll_none (ev : List (String × String)) (u : String) :
    (pushAll [] ev).get u = none ↔ ev.filter (fun p => decide (p.1 = u)) = [] := by
  rw [get_pushAll]
  constructor
  · intro h
    by_contra hne
    rw [if_neg hne] at h
    cases h
  · intro h
    rw [if_pos h]; rfl

theorem pushAll_ne_nil_of_filter (ev : List (String × String)) (u : String)
    (h : ev.filter (fun p => decide (p.1 = u)) ≠ []) : pushAll [] ev ≠ [] := by
  intro e
  rw [pushAll_eq_nil] at e
  rw [e.2] at h
  exact h rfl

theorem resolveName_of_get (lm : LabelMap) (id : Int) (name : String)
    (h : lm.get id = some name) (hn : name ≠ "") : resolveName lm id = some name := by
  unfold resolveName; rw [h]; simp [hn]

/-- The names a raw list of known decimal ids contributes. -/
theorem namesOfRaw_intercalate (lm : LabelMap) (toks : List (List Char))
    (h : KnownIdList lm toks) :
    namesOfRaw lm (some ⟨List.intercalate [','] toks⟩)
        = toks.filterMap (fun t => lm.get (decimalValue t : Int)) ∧
      toks.filterMap (fun t => lm.get (decimalValue t : Int)) ≠ [] := by
  obtain ⟨hne, h⟩ := h
  have h1 := trimSpace_intercalate_ne toks hne (fun t ht => ⟨(h t ht).1, (h t ht).2.1⟩)
  have h2 := splitIDs_intercalate toks hne
    (fun t ht => ⟨(h t ht).1, (h t ht).2.1, (h t ht).2.2.1, (h t ht).2.2.2.1⟩)
  constructor
  · unfold namesOfRaw
    simp only [h1, if_false, h2, List.filterMap_map]
    apply List.filterMap_congr
    intro t ht
    obtain ⟨name, hg, hn⟩ := (h t ht).2.2.2.2
    simp only [Function.comp]
    rw [resolveName_of_get lm _ name hg hn, hg]
  · cases toks with
    | nil => exact absurd rfl hne
    | cons t ts =>
      obtain ⟨name, hg, hn⟩ := (h t (List.mem_cons_self _ _)).2.2.2.2
      rw [List.filterMap_cons, hg]
      simp

theorem collectLink_error (db : DB) (lm : LabelMap) (e : String)
    (hdict : loadLabelMap db = .ok lm) (h : inlineTier db lm = .error e) :
    collectLink db = .error e := by
  unfold collectLink; rw [hdict]; simp only [h]

theorem collectLink_ok (db : DB) (lm : LabelMap) (link : LinkMap)
    (hdict : loadLabelMap db = .ok lm) (h : inlineTier db lm = .ok link) :
    collectLink db = linkTableTier db lm link := by
  unfold collectLink; rw [hdict]; simp only [h]

/-- C1.  Inline-list tier: when the contact table has a `LabelIDList` column and is
read, a contact with empty labels on entry whose one row holds a comma-separated
list of positive decimal ids, all keys of the dictionary with non-empty names, has
after a successful resolution the dictionary names of those ids, in the order of
the list, later repetitions removed. -/
theorem inline_list_labels (db : DB) (contacts : List ContactV4) (labelMap : LabelMap)
    (rows : Rows (String × Option String))
    (hdict : loadLabelMap db = .ok labelMap)
    (hcol : columnExists db "contact" "LabelIDList" = .ok true)
    (hrows : db.selectLabelIDList = .ok rows)
    (hok : (fillContactLabelsV4 db contacts).2 = none) :
    List.Forall₂ (fun c c' =>
      c.Labels = [] →
      ∀ toks : List (List Char), KnownIdList labelMap toks →
        rows.values.filter (fun r => decide (r.1 = c.UserName))
          = [(c.UserName, some ⟨List.intercalate [','] toks⟩)] →
        c'.Labels = dedup (toks.filterMap (fun t => labelMap.get (decimalValue t : Int))))
      contacts (fillContactLabelsV4 db contacts).1 := by
  by_cases hcs : contacts = []
  · subst hcs; exact List.Forall₂.nil
  have hin := inlineTier_of_rows db labelMap rows hcol hrows
  cases hloop : idListLoop labelMap rows.err rows.items [] with
  | error e =>
    rw [hloop] at hin
    rw [fill_of_error db contacts e hcs (collectLink_error db labelMap e hdict hin)] at hok
    cases hok
  | ok link =>
    rw [hloop] at hin
    have hcl := collectLink_ok db labelMap link hdict hin
    obtain ⟨_, hlink⟩ := idListLoop_rows labelMap rows [] link hloop
    -- the names filed for a contact that meets the premises
    have key : ∀ (c : ContactV4) (toks : List (List Char)), KnownIdList labelMap toks →
        rows.values.filter (fun r => decide (r.1 = c.UserName))
          = [(c.UserName, some ⟨List.intercalate [','] toks⟩)] →
        ((inlineEvidence labelMap rows.values).filter
            (fun p => decide (p.1 = c.UserName))).map Prod.snd
          = toks.filterMap (fun t => labelMap.get (decimalValue t : Int)) ∧
        toks.filterMap (fun t => labelMap.get (decimalValue t : Int)) ≠ [] := by
      intro c toks htoks hrow
      have := namesOfRaw_intercalate labelMap toks htoks
      refine ⟨?_, this.2⟩
      rw [evidence_filter_inline, hrow]
      simp [this.1]
    by_cases hl : link = []
    · refine (fill_appended db contacts).imp ?_
      intro c c' _ _ toks htoks hrow
      exfalso
      obtain ⟨k1, k2⟩ := key c toks htoks hrow
      have : (inlineEvidence labelMap rows.values).filter
          (fun p => decide (p.1 = c.UserName)) ≠ [] := by
        intro e; rw [e] at k1; exact k2 k1.symm
      exact pushAll_ne_nil_of_filter _ _ this (hlink ▸ hl)
    · rw [linkTableTier_of_ne db labelMap link hl] at hcl
      rw [fill_of_link db contacts link hcs hcl hl]
      apply forall₂_map_of_forall
      intro c _ hempty toks htoks hrow
      obtain ⟨k1, k2⟩ := key c toks htoks hrow
      rw [hlink, annotateOne_pushAll _ c _ k1 k2, hempty, List.nil_append]

/-- C1 at the database of the test `LabelIDList column`: the premises hold for
`alice`, whose list is `1,2`. -/
theorem inline_list_labels_witness :
    KnownIdList [(1, "客户"), (2, "VIP")] [['1'], ['2']] ∧
    List.Forall₂ (fun c c' =>
      c.Labels = [] →
      ∀ toks : List (List Char), KnownIdList [(1, "客户"), (2, "VIP")] toks →
        (rowsOf [("alice", some "1,2"), ("bob", (none : Option String))]).values.filter
            (fun r => decide (r.1 = c.UserName))
          = [(c.UserName, some ⟨List.intercalate [','] toks⟩)] →
        c'.Labels = dedup (toks.filterMap
          (fun t => LabelMap.get [(1, "客户"), (2, "VIP")] (decimalValue t : Int))))
      inlineTestContacts (fillContactLabelsV4 inlineTestDB inlineTestContacts).1 :=
  ⟨⟨by decide, by
      intro t ht
      simp only [List.mem_cons, List.mem_singleton, List.not_mem_nil, or_false] at ht
      rcases ht with rfl | rfl
      · exact ⟨by decide, by decide, by decide, by decide, "客户", by decide, by decide⟩
      · exact ⟨by decide, by decide, by decide, by decide, "VIP", by decide, by decide⟩⟩,
    inline_list_labels inlineTestDB inlineTestContacts
      [(1, "客户"), (2, "VIP")] (rowsOf [("alice", some "1,2"), ("bob", none)])
      rfl rfl rfl (by decide)⟩

theorem dedup_nil : dedup [] = [] := rfl

/-- C2, amended.  Link-table tier: when the inline-list tier yields no association, a
link table is selected and read, and at least one of its rows resolves to a
non-empty dictionary name, a contact with empty labels on entry has after a
successful resolution the names of the rows carrying its identifier, in row order,
for the ids in the dictionary with a non-empty name, later repetitions removed. -/
theorem link_table_labels (db : DB) (contacts : List ContactV4) (labelMap : LabelMap)
    (tbl userCol labelCol : String) (rows : Rows (String × Int))
    (hdict : loadLabelMap db = .ok labelMap)
    (hinline : inlineTier db labelMap = .ok [])
    (hdet : detectLinkTable db = .ok (tbl, userCol, labelCol)) (htbl : tbl ≠ "")
    (hrows : db.selectLink userCol labelCol tbl = .ok rows)
    (hassoc : ∃ r ∈ rows.values, resolveName labelMap r.2 ≠ none)
    (hok : (fillContactLabelsV4 db contacts).2 = none) :
    List.Forall₂ (fun c c' =>
      c.Labels = [] →
      c'.Labels = dedup ((rows.values.filter (fun r => decide (r.1 = c.UserName))).filterMap
        (fun r => resolveName labelMap r.2)))
      contacts (fillContactLabelsV4 db contacts).1 := by
  by_cases hcs : contacts = []
  · subst hcs; exact List.Forall₂.nil
  have hcl := collectLink_ok db labelMap [] hdict hinline
  rw [linkTableTier_of_rows db labelMap tbl userCol labelCol rows hdet htbl hrows] at hcl
  cases hloop : linkRowsLoop labelMap rows.err rows.items [] with
  | error e =>
    rw [hloop] at hcl
    rw [fill_of_error db contacts e hcs hcl] at hok
    cases hok
  | ok link =>
    rw [hloop] at hcl
    obtain ⟨_, hlink⟩ := linkRowsLoop_rows labelMap rows [] link hloop
    have hl : link ≠ [] := by
      obtain ⟨r, hr, hres⟩ := hassoc
      rw [hlink]
      apply pushAll_ne_nil_of_filter _ r.1
      intro e
      have h1 := evidence_filter_link labelMap rows.values r.1
      rw [e] at h1
      have h2 : r ∈ rows.values.filter (fun x => decide (x.1 = r.1)) := by
        simp [List.mem_filter, hr]
      cases hn : resolveName labelMap r.2 with
      | none => exact hres hn
      | some name =>
        have : name ∈ (rows.values.filter (fun x => decide (x.1 = r.1))).filterMap
            (fun x => resolveName labelMap x.2) :=
          List.mem_filterMap.2 ⟨r, h2, hn⟩
        rw [← h1] at this
        simp at this
    rw [fill_of_link db contacts link hcs hcl hl]
    apply forall₂_map_of_forall
    intro c _ hempty
    have h1 := evidence_filter_link labelMap rows.values c.UserName
    by_cases hn : (rows.values.filter (fun r => decide (r.1 = c.UserName))).filterMap
        (fun r => resolveName labelMap r.2) = []
    · rw [hn] at h1
      rw [hlink, annotateOne_pushAll_nil _ c h1, hn, hempty, dedup_nil]
    · rw [hlink, annotateOne_pushAll _ c _ h1 hn, hempty, List.nil_append]

/-- C2 at the database of the test `Mapping table fallback`. -/
theorem link_table_labels_witness :
    (∃ r ∈ (rowsOf [("carol", (1 : Int)), ("dave", 2), ("dave", 1)]).values,
      resolveName [(1, "朋友"), (2, "供应商")] r.2 ≠ none) ∧
    List.Forall₂ (fun c c' =>
      c.Labels = [] →
      c'.Labels = dedup (((rowsOf [("carol", (1 : Int)), ("dave", 2), ("dave", 1)]).values.filter
        (fun r => decide (r.1 = c.UserName))).filterMap
        (fun r => resolveName [(1, "朋友"), (2, "供应商")] r.2)))
      linkTestContacts (fillContactLabelsV4 linkTestDB linkTestContacts).1 :=
  ⟨⟨("carol", 1), by decide, by decide⟩,
    link_table_labels linkTestDB linkTestContacts [(1, "朋友"), (2, "供应商")]
      "rcontact_label" "username" "label_id_" (rowsOf [("carol", 1), ("dave", 2), ("dave", 1)])
      rfl rfl rfl (by decide) rfl ⟨("carol", 1), by decide, by decide⟩ (by decide)⟩

/-- C2 as stated fails: in `linkUnknownDB` the inline-list tier yields nothing and the
link table `rcontact_label` is selected, but its one row has an id that is not in
the dictionary, so the heuristic tier runs and gives `dave`, whose remark carries
the marker, the label `客户` instead of the empty sequence of link-table names. -/
theorem link_table_labels_counterexample :
    loadLabelMap linkUnknownDB = .ok [(1, "朋友"), (2, "供应商")] ∧
    inlineTier linkUnknownDB [(1, "朋友"), (2, "供应商")] = .ok [] ∧
    detectLinkTable linkUnknownDB = .ok ("rcontact_label", "username", "label_id_") ∧
    linkUnknownDB.selectLink "username" "label_id_" "rcontact_label"
      = .ok (rowsOf [("dave", 7)]) ∧
    (fillContactLabelsV4 linkUnknownDB [daveClient]).2 = none ∧
    ¬ List.Forall₂ (fun c c' =>
      c.Labels = [] →
      c'.Labels = dedup (((rowsOf [("dave", (7 : Int))]).values.filter
        (fun r => decide (r.1 = c.UserName))).filterMap
        (fun r => resolveName [(1, "朋友"), (2, "供应商")] r.2)))
      [daveClient] (fillContactLabelsV4 linkUnknownDB [daveClient]).1 := by
  refine ⟨rfl, rfl, rfl, rfl, by decide, ?_⟩
  intro h
  have e : fillContactLabelsV4 linkUnknownDB [daveClient]
      = ([⟨"dave", "老客户", ["客户"]⟩], none) := by decide
  rw [e] at h
  cases h with
  | cons h1 _ => exact absurd (h1 rfl) (by decide)

theorem toLowerRune_fixed_of_large (c : Char) (h : 123 ≤ (toLowerRune c).toNat) :
    toLowerRune c = c := by
  unfold toLowerRune at h ⊢
  by_cases h1 : c.toNat = 0x130
  · rw [if_pos h1] at h; exact absurd h (by decide)
  · rw [if_neg h1] at h ⊢
    by_cases h2 : c.toNat = 0x212A
    · rw [if_pos h2] at h; exact absurd h (by decide)
    · rw [if_neg h2] at h ⊢
      by_cases h3 : 65 ≤ c.toNat ∧ c.toNat ≤ 90
      · rw [toNat_toLower_of_upper c h3] at h; omega
      · exact toLower_of_not_upper c h3

theorem map_lower_eq_self (w sub : List Char) (hsub : ∀ x ∈ sub, 123 ≤ x.toNat)
    (h : w.map toLowerRune = sub) : w = sub := by
  induction w generalizing sub with
  | nil => simpa using h
  | cons c w ih =>
    cases sub with
    | nil => simp at h
    | cons x sub =>
      simp only [List.map_cons, List.cons.injEq] at h
      obtain ⟨h1, h2⟩ := h
      have hx := hsub x (List.mem_cons_self _ _)
      rw [← h1] at hx
      have := toLowerRune_fixed_of_large c hx
      rw [this] at h1
      rw [h1, ih sub (fun y hy => hsub y (List.mem_cons_of_mem _ hy)) h2]

theorem infix_of_infix_map_lower (s sub : List Char) (hsub : ∀ x ∈ sub, 123 ≤ x.toNat)
    (h : sub <:+: s.map toLowerRune) : sub <:+: s := by
  obtain ⟨a, b, hab⟩ := h
  rw [List.append_assoc] at hab
  obtain ⟨a', r, hs, _, hr⟩ := List.map_eq_append_iff.1 hab.symm
  obtain ⟨w, b', hr', hw, _⟩ := List.map_eq_append_iff.1 hr
  have := map_lower_eq_self w sub hsub hw
  subst this
  exact ⟨a', b', by rw [hs, hr', List.append_assoc]⟩

/-- What `looksLikeClient` recognises: a value containing the marker `客户`, or
containing `customer` once lower-cased. -/
theorem looksLikeClient_iff (v : String) :
    looksLikeClient v = true
      ↔ strContains v "客户" = true ∨ strContains (toLower v) "customer" = true := by
  constructor
  · intro h
    unfold looksLikeClient at h
    simp only at h
    have hmarker : ∀ sub : List Char, "客户".data <:+: sub →
        containsChars (toLower (trimSpace v)).data sub = true → strContains v "客户" = true := by
      intro sub hs hc
      rw [containsChars_iff] at hc
      have h1 : "客户".data <:+: (trimSpace v).data.map toLowerRune := hs.trans hc
      have h2 := infix_of_infix_map_lower _ _ (by decide) h1
      rw [strContains_iff]
      exact h2.trans (trimSpaceChars_within v.data)
    split at h
    · cases h
    · split at h
      · rename_i h1
        left
        rw [strContains_iff] at h1 ⊢
        exact h1.trans (trimSpaceChars_within v.data)
      · split at h
        · rename_i h1
          left
          exact hmarker "[客户]".data ⟨['['], [']'], rfl⟩ h1
        · split at h
          · rename_i h1
            left
            exact hmarker "#客户".data ⟨['#'], [], rfl⟩ h1
          · split at h
            · rename_i h1
              right
              rw [toLower_trimSpace, strContains_iff] at h1
              rw [strContains_iff]
              exact h1.trans (trimSpaceChars_within (toLower v).data)
            · cases h
  · rintro (h | h)
    · exact looksLikeClient_of_marker v h
    · exact looksLikeClient_of_customer v h

theorem hasDescStmt_true (db : DB) (hcol : columnExists db "contact" "description" = .ok true)
    (hp : db.prepareDescription = none) : hasDescStmt db = true := by
  unfold hasDescStmt; rw [hcol]; simp [hp]

theorem hasDescStmt_col (db : DB) (h : hasDescStmt db = true) :
    columnExists db "contact" "description" = .ok true := by
  unfold hasDescStmt at h
  split at h
  · assumption
  · cases h

/-- A successful heuristic tier marks exactly the contacts the heuristic picks. -/
theorem heuristicTier_success (db : DB) (cs : List ContactV4)
    (hok : (heuristicTier db cs).2 = none) :
    List.Forall₂ (fun c c' =>
        c' = if heuristicMarks db (hasDescStmt db) c = true then markClient c else c)
      cs (heuristicTier db cs).1 := by
  rcases heuristicTier_cases db cs with ⟨e, h⟩ | h
  · rw [h] at hok; cases hok
  · rw [h] at hok ⊢
    exact heuristicLoop_success db _ cs hok

/-- The heuristic tier, whatever its outcome, changes only contacts the heuristic
picks. -/
theorem heuristicTier_general (db : DB) (cs : List ContactV4) :
    List.Forall₂ (fun c c' =>
        c' = c ∨ (heuristicMarks db (hasDescStmt db) c = true ∧ c' = markClient c))
      cs (heuristicTier db cs).1 := by
  rcases heuristicTier_cases db cs with ⟨e, h⟩ | h
  · rw [h]; exact List.forall₂_same.2 (fun c _ => Or.inl rfl)
  · rw [h]; exact heuristicLoop_general db _ cs

/-- C3.  Heuristic tier, positive cases: when neither structured tier yields an
association and resolution succeeds, a contact with empty labels on entry gets
exactly `客户` if its remark contains `客户`, and also if its remark does not, the
contact table has a description column, and its stored description contains
`customer` in any letter case or `客户`. -/
theorem heuristic_positive (db : DB) (contacts : List ContactV4)
    (hlink : collectLink db = .ok [])
    (hok : (fillContactLabelsV4 db contacts).2 = none) :
    List.Forall₂ (fun c c' =>
      c.Labels = [] →
      (strContains c.Remark "客户" = true → c'.Labels = ["客户"]) ∧
      (strContains c.Remark "客户" = false →
        columnExists db "contact" "description" = .ok true →
        db.prepareDescription = none →
        ∀ d, db.queryDescription c.UserName = .row (some d) →
          strContains (toLower d) "customer" = true ∨ strContains d "客户" = true →
          c'.Labels = ["客户"]))
      contacts (fillContactLabelsV4 db contacts).1 := by
  by_cases hcs : contacts = []
  · subst hcs; exact List.Forall₂.nil
  rw [fill_of_nolink db contacts hcs hlink] at hok ⊢
  refine (heuristicTier_success db contacts hok).imp ?_
  intro c c' hc hempty
  have hmark : heuristicMarks db (hasDescStmt db) c = true → c'.Labels = ["客户"] := by
    intro hm
    rw [hc, if_pos hm]
    simp [markClient, hempty]
  constructor
  · intro hr
    apply hmark
    simp [heuristicMarks, looksLikeClient_of_marker _ hr]
  · intro _ hcol hp d hq hd
    apply hmark
    have hd' : looksLikeClient d = true := (looksLikeClient_iff d).2 hd.symm
    simp [heuristicMarks, hasDescStmt_true db hcol hp, hq, hd']


/-- C3 at the database of the test `Heuristic fallback`. -/
theorem heuristic_positive_witness :
    collectLink heuristicTestDB = .ok [] ∧
    (fillContactLabelsV4 heuristicTestDB heuristicTestContacts).2 = none ∧
    List.Forall₂ (fun c c' =>
      c.Labels = [] →
      (strContains c.Remark "客户" = true → c'.Labels = ["客户"]) ∧
      (strContains c.Remark "客户" = false →
        columnExists heuristicTestDB "contact" "description" = .ok true →
        heuristicTestDB.prepareDescription = none →
        ∀ d, heuristicTestDB.queryDescription c.UserName = .row (some d) →
          strContains (toLower d) "customer" = true ∨ strContains d "客户" = true →
          c'.Labels = ["客户"]))
      heuristicTestContacts (fillContactLabelsV4 heuristicTestDB heuristicTestContacts).1 :=
  ⟨rfl, by decide, heuristic_positive heuristicTestDB heuristicTestContacts rfl (by decide)⟩

/-- C10, amended.  Heuristic tier, negative case: when neither structured tier yields
an association, a contact whose remark contains neither `客户` nor, in any letter
case, `customer`, and whose description, if the description column exists and the
contact has a row with one, contains neither of them, has after resolution the
labels it had on entry. -/
theorem heuristic_negative (db : DB) (contacts : List ContactV4)
    (hlink : collectLink db = .ok []) :
    List.Forall₂ (fun c c' =>
      strContains c.Remark "客户" = false →
      strContains (toLower c.Remark) "customer" = false →
      (columnExists db "contact" "description" = .ok true →
        ∀ d, db.queryDescription c.UserName = .row (some d) →
          strContains d "客户" = false ∧ strContains (toLower d) "customer" = false) →
      c'.Labels = c.Labels)
      contacts (fillContactLabelsV4 db contacts).1 := by
  by_cases hcs : contacts = []
  · subst hcs; exact List.Forall₂.nil
  rw [fill_of_nolink db contacts hcs hlink]
  refine (heuristicTier_general db contacts).imp ?_
  rintro c c' (rfl | ⟨hm, rfl⟩) h1 h2 h3
  · rfl
  · exfalso
    have hr : looksLikeClient c.Remark = false := by
      rw [← Bool.not_eq_true, looksLikeClient_iff]
      simp [h1, h2]
    unfold heuristicMarks at hm
    rw [hr, Bool.false_or, Bool.and_eq_true] at hm
    obtain ⟨hs, hq⟩ := hm
    have hcol := hasDescStmt_col db hs
    cases hqd : db.queryDescription c.UserName with
    | failed msg => rw [hqd] at hq; cases hq
    | noRows => rw [hqd] at hq; cases hq
    | row d =>
      cases d with
      | none => rw [hqd] at hq; cases hq
      | some d =>
        rw [hqd] at hq
        simp only at hq
        have := h3 hcol d hqd
        rw [looksLikeClient_iff] at hq
        simp [this.1, this.2] at hq

/-- C10 at the database of the test `Heuristic fallback`. -/
theorem heuristic_negative_witness :
    collectLink heuristicTestDB = .ok [] ∧
    List.Forall₂ (fun c c' =>
      strContains c.Remark "客户" = false →
      strContains (toLower c.Remark) "customer" = false →
      (columnExists heuristicTestDB "contact" "description" = .ok true →
        ∀ d, heuristicTestDB.queryDescription c.UserName = .row (some d) →
          strContains d "客户" = false ∧ strContains (toLower d) "customer" = false) →
      c'.Labels = c.Labels)
      heuristicTestContacts (fillContactLabelsV4 heuristicTestDB heuristicTestContacts).1 :=
  ⟨rfl, heuristic_negative heuristicTestDB heuristicTestContacts rfl⟩

/-- C10 as stated fails: in the database of the test `Heuristic fallback`, the contact
`gina` with remark `Big Customer` has a remark without `客户` and an empty
description, yet the remark rule fires on `customer` and appends `客户`. -/
theorem heuristic_negative_counterexample :
    collectLink heuristicTestDB = .ok [] ∧
    strContains ginaCustomer.Remark "客户" = false ∧
    heuristicTestDB.queryDescription ginaCustomer.UserName = .row (some "") ∧
    looksLikeClient "" = false ∧
    (fillContactLabelsV4 heuristicTestDB [ginaCustomer]).2 = none ∧
    (fillContactLabelsV4 heuristicTestDB [ginaCustomer]).1.map ContactV4.Labels = [["客户"]] ∧
    [ginaCustomer].map ContactV4.Labels = [[]] :=
  ⟨rfl, by decide, rfl, by decide, by decide, by decide, by decide⟩

/-- C5, amended.  On a successful resolution the names appended to each contact's
labels contain each name at most once, so a contact whose labels are empty on entry
ends with each name at most once. -/
theorem appended_labels_nodup (db : DB) (contacts : List ContactV4)
    (_hok : (fillContactLabelsV4 db contacts).2 = none) :
    List.Forall₂ (fun c c' =>
      (∃ added : List String, c'.Labels = c.Labels ++ added ∧ added.Nodup) ∧
      (c.Labels = [] → c'.Labels.Nodup))
      contacts (fillContactLabelsV4 db contacts).1 := by
  refine (fill_appended db contacts).imp ?_
  rintro c c' ⟨_, _, added, h1, h2⟩
  refine ⟨⟨added, h1, h2⟩, fun he => ?_⟩
  rw [h1, he, List.nil_append]
  exact h2

/-- C5 at the database of the test `Mapping table fallback`. -/
theorem appended_labels_nodup_witness :
    (fillContactLabelsV4 linkTestDB linkTestContacts).2 = none ∧
    List.Forall₂ (fun c c' =>
      (∃ added : List String, c'.Labels = c.Labels ++ added ∧ added.Nodup) ∧
      (c.Labels = [] → c'.Labels.Nodup))
      linkTestContacts (fillContactLabelsV4 linkTestDB linkTestContacts).1 :=
  ⟨by decide, appended_labels_nodup linkTestDB linkTestContacts (by decide)⟩

/-- C5 as stated fails: a contact that carries `客户` on entry and is marked by the
heuristic ends with `客户` twice, on a run that returns no error. -/
theorem appended_labels_nodup_counterexample :
    (fillContactLabelsV4 heuristicTestDB [evaLabelled]).2 = none ∧
    (fillContactLabelsV4 heuristicTestDB [evaLabelled]).1.map ContactV4.Labels
      = [["客户", "客户"]] ∧
    ¬ ∀ c' ∈ (fillContactLabelsV4 heuristicTestDB [evaLabelled]).1, c'.Labels.Nodup := by
  refine ⟨by decide, by decide, ?_⟩
  intro h
  have e : fillContactLabelsV4 heuristicTestDB [evaLabelled]
      = ([⟨"eva", "张三-客户", ["客户", "客户"]⟩], none) := by decide
  rw [e] at h
  have := h _ (List.mem_singleton.2 rfl)
  revert this
  decide

/-- C6, the code at the failing input: in the heuristic tier the description lookup
for the second contact fails; the call returns the error, and the first contact
keeps the label appended before the failure. -/
theorem heuristic_failure_keeps_earlier_labels :
    fillContactLabelsV4 heuristicFailDB heuristicTestContacts
      = ([⟨"eva", "张三-客户", ["客户"]⟩, ⟨"frank", "", []⟩, ⟨"gina", "", []⟩],
          some "query description: disk I/O error") ∧
    heuristicTestContacts.map ContactV4.Labels = [[], [], []] := by
  constructor
  · decide
  · decide

/-- C9.  Append-only annotation and frame: on a successful resolution each contact's
labels on entry are an initial segment of its labels on exit, its identifier and
remark are unchanged, and when a structured tier produced the association mapping,
a contact whose identifier has no entry in it keeps exactly its labels. -/
theorem append_only_frame (db : DB) (contacts : List ContactV4)
    (_hok : (fillContactLabelsV4 db contacts).2 = none) :
    List.Forall₂ (fun c c' =>
      c.Labels <+: c'.Labels ∧ c'.UserName = c.UserName ∧ c'.Remark = c.Remark ∧
      (∀ link : LinkMap, collectLink db = .ok link → link ≠ [] →
        link.get c.UserName = none → c'.Labels = c.Labels))
      contacts (fillContactLabelsV4 db contacts).1 := by
  by_cases hcs : contacts = []
  · subst hcs; exact List.Forall₂.nil
  have hpre : ∀ c c' : ContactV4, Appended c c' →
      c.Labels <+: c'.Labels ∧ c'.UserName = c.UserName ∧ c'.Remark = c.Remark := by
    rintro c c' ⟨h1, h2, added, h3, _⟩
    exact ⟨⟨added, h3.symm⟩, h1, h2⟩
  cases h : collectLink db with
  | error e =>
    refine (fill_appended db contacts).imp ?_
    intro c c' ha
    obtain ⟨a, b, d⟩ := hpre c c' ha
    exact ⟨a, b, d, fun link hl => by cases hl⟩
  | ok link =>
    by_cases hl : link = []
    · refine (fill_appended db contacts).imp ?_
      intro c c' ha
      obtain ⟨a, b, d⟩ := hpre c c' ha
      refine ⟨a, b, d, fun link' hl' hne => ?_⟩
      injection hl' with hl'
      exact absurd (hl' ▸ hl) hne
    · rw [fill_of_link db contacts link hcs h hl]
      apply forall₂_map_of_forall
      intro c _
      obtain ⟨a, b, d⟩ := hpre c _ (annotateOne_appended link c)
      refine ⟨a, b, d, fun link' hl' _ hget => ?_⟩
      injection hl' with hl'
      subst hl'
      unfold annotateOne
      rw [hget]

/-- C9 at the database of the test `LabelIDList column`, where `bob` has no entry in
the mapping. -/
theorem append_only_frame_witness :
    (fillContactLabelsV4 inlineTestDB inlineTestContacts).2 = none ∧
    collectLink inlineTestDB = .ok [("alice", ["客户", "VIP"])] ∧
    LinkMap.get [("alice", ["客户", "VIP"])] "bob" = none ∧
    List.Forall₂ (fun c c' =>
      c.Labels <+: c'.Labels ∧ c'.UserName = c.UserName ∧ c'.Remark = c.Remark ∧
      (∀ link : LinkMap, collectLink inlineTestDB = .ok link → link ≠ [] →
        link.get c.UserName = none → c'.Labels = c.Labels))
      inlineTestContacts (fillContactLabelsV4 inlineTestDB inlineTestContacts).1 :=
  ⟨by decide, rfl, rfl, append_only_frame inlineTestDB inlineTestContacts (by decide)⟩

theorem loadLabelMap_congr (db₁ db₂ : DB) (h : db₂.selectLabels = db₁.selectLabels) :
    loadLabelMap db₂ = loadLabelMap db₁ := by
  unfold loadLabelMap loadAllLabels
  rw [h]

theorem inlineTier_congr (db₁ db₂ : DB) (lm : LabelMap)
    (hcol : columnExists db₂ "contact" "LabelIDList" = columnExists db₁ "contact" "LabelIDList")
    (hrows : db₂.selectLabelIDList = db₁.selectLabelIDList) :
    inlineTier db₂ lm = inlineTier db₁ lm := by
  unfold inlineTier
  rw [hcol, hrows]

theorem linkTableTier_congr (db₁ db₂ : DB) (lm : LabelMap) (link : LinkMap)
    (hdet : detectLinkTable db₂ = detectLinkTable db₁)
    (hsel : db₂.selectLink = db₁.selectLink) :
    linkTableTier db₂ lm link = linkTableTier db₁ lm link := by
  unfold linkTableTier
  rw [hdet, hsel]

theorem annotate_labels (link : LinkMap) (cs : List ContactV4) :
    (annotate link cs).map ContactV4.Labels
      = (cs.map (fun c => (c.UserName, c.Labels))).map
          (fun p => (annotateOne link ⟨p.1, "", p.2⟩).Labels) := by
  unfold annotate
  rw [List.map_map, List.map_map]
  apply List.map_congr_left
  intro c _
  simp only [Function.comp, annotateOne]
  cases link.get c.UserName with
  | none => rfl
  | some names =>
    simp only
    split <;> rfl

/-- Two runs that reach the annotation with the same non-empty mapping, on contacts
that agree on identifiers and entry labels, leave the same labels and no error. -/
theorem fill_agree_of_link (db₁ db₂ : DB) (cs₁ cs₂ : List ContactV4) (link : LinkMap)
    (hcs : cs₂.map (fun c => (c.UserName, c.Labels)) = cs₁.map (fun c => (c.UserName, c.Labels)))
    (h₁ : collectLink db₁ = .ok link) (h₂ : collectLink db₂ = .ok link) (hne : link ≠ []) :
    (fillContactLabelsV4 db₂ cs₂).1.map ContactV4.Labels
        = (fillContactLabelsV4 db₁ cs₁).1.map ContactV4.Labels ∧
      (fillContactLabelsV4 db₂ cs₂).2 = (fillContactLabelsV4 db₁ cs₁).2 := by
  by_cases hc : cs₁ = []
  · subst hc
    have : cs₂ = [] := by simpa using hcs
    subst this
    exact ⟨rfl, rfl⟩
  · have hc₂ : cs₂ ≠ [] := by
      intro e; subst e
      have : cs₁ = [] := by simpa using hcs.symm
      exact hc this
    rw [fill_of_link db₁ cs₁ link hc h₁ hne, fill_of_link db₂ cs₂ link hc₂ h₂ hne]
    simp only [annotate_labels, hcs, and_self]

/-- C4.  Tier exclusivity.  Take two databases that agree on the label dictionary, on
the `LabelIDList` probe and on the `(username, LabelIDList)` rows of the contact
table, and two contact sequences that agree on identifiers and entry labels.  If the
inline-list tier produces an association, both runs leave the same labels and
return the same error value, whatever the link tables, remarks and descriptions
are.  If moreover the databases agree on the link table detected and on its rows,
and the structured tiers produce an association, both runs leave the same labels,
whatever the remarks and descriptions are. -/
theorem tier_exclusivity (db₁ db₂ : DB) (cs₁ cs₂ : List ContactV4)
    (hlabels : db₂.selectLabels = db₁.selectLabels)
    (hcol : columnExists db₂ "contact" "LabelIDList" = columnExists db₁ "contact" "LabelIDList")
    (hrows : db₂.selectLabelIDList = db₁.selectLabelIDList)
    (hcs : cs₂.map (fun c => (c.UserName, c.Labels))
      = cs₁.map (fun c => (c.UserName, c.Labels))) :
    ((∃ labelMap link, loadLabelMap db₁ = .ok labelMap ∧
        inlineTier db₁ labelMap = .ok link ∧ link ≠ []) →
      (fillContactLabelsV4 db₂ cs₂).1.map ContactV4.Labels
          = (fillContactLabelsV4 db₁ cs₁).1.map ContactV4.Labels ∧
        (fillContactLabelsV4 db₂ cs₂).2 = (fillContactLabelsV4 db₁ cs₁).2) ∧
    (detectLinkTable db₂ = detectLinkTable db₁ → db₂.selectLink = db₁.selectLink →
      (∃ link, collectLink db₁ = .ok link ∧ link ≠ []) →
      (fillContactLabelsV4 db₂ cs₂).1.map ContactV4.Labels
          = (fillContactLabelsV4 db₁ cs₁).1.map ContactV4.Labels ∧
        (fillContactLabelsV4 db₂ cs₂).2 = (fillContactLabelsV4 db₁ cs₁).2) := by
  have hd := loadLabelMap_congr db₁ db₂ hlabels
  constructor
  · rintro ⟨lm, link, h1, h2, hne⟩
    have h₁ : collectLink db₁ = .ok link := by
      rw [collectLink_ok db₁ lm link h1 h2, linkTableTier_of_ne db₁ lm link hne]
    have h₂ : collectLink db₂ = .ok link := by
      rw [collectLink_ok db₂ lm link (hd ▸ h1)
        ((inlineTier_congr db₁ db₂ lm hcol hrows).trans h2), linkTableTier_of_ne db₂ lm link hne]
    exact fill_agree_of_link db₁ db₂ cs₁ cs₂ link hcs h₁ h₂ hne
  · rintro hdet hsel ⟨link, h1, hne⟩
    have h₂ : collectLink db₂ = collectLink db₁ := by
      unfold collectLink
      rw [hd]
      cases loadLabelMap db₁ with
      | error e => rfl
      | ok lm =>
        simp only [inlineTier_congr db₁ db₂ lm hcol hrows]
        cases inlineTier db₁ lm with
        | error e => rfl
        | ok l => exact linkTableTier_congr db₁ db₂ lm l hdet hsel
    exact fill_agree_of_link db₁ db₂ cs₁ cs₂ link hcs h1 (h₂.trans h1) hne

/-- C4 at the databases of the tests: the inline-list database against one with a
link table and descriptions added, and the link-table database against one with a
description column, each with contacts whose remarks differ. -/
theorem tier_exclusivity_witness :
    ((fillContactLabelsV4 inlineOtherDB [⟨"alice", "客户 A", []⟩, ⟨"bob", "customer", []⟩]).1.map
          ContactV4.Labels
        = (fillContactLabelsV4 inlineTestDB inlineTestContacts).1.map ContactV4.Labels ∧
      (fillContactLabelsV4 inlineOtherDB [⟨"alice", "客户 A", []⟩, ⟨"bob", "customer", []⟩]).2
        = (fillContactLabelsV4 inlineTestDB inlineTestContacts).2) ∧
    ((fillContactLabelsV4 linkOtherDB [⟨"carol", "客户", []⟩, ⟨"dave", "customer", []⟩]).1.map
          ContactV4.Labels
        = (fillContactLabelsV4 linkTestDB linkTestContacts).1.map ContactV4.Labels ∧
      (fillContactLabelsV4 linkOtherDB [⟨"carol", "客户", []⟩, ⟨"dave", "customer", []⟩]).2
        = (fillContactLabelsV4 linkTestDB linkTestContacts).2) :=
  ⟨(tier_exclusivity inlineTestDB inlineOtherDB inlineTestContacts
      [⟨"alice", "客户 A", []⟩, ⟨"bob", "customer", []⟩] rfl rfl rfl rfl).1
      ⟨[(1, "客户"), (2, "VIP")], [("alice", ["客户", "VIP"])], rfl, rfl, by decide⟩,
    (tier_exclusivity linkTestDB linkOtherDB linkTestContacts
      [⟨"carol", "客户", []⟩, ⟨"dave", "customer", []⟩] rfl rfl rfl rfl).2 rfl rfl
      ⟨[("carol", ["朋友"]), ("dave", ["供应商", "朋友"])], rfl, by decide⟩⟩

theorem rowsOf_clean {α : Type} (xs : List α) : (rowsOf xs).Clean := by
  refine ⟨fun x hx => ?_, rfl⟩
  obtain ⟨a, _, rfl⟩ := List.mem_map.1 hx
  exact ⟨a, rfl⟩

/-- SQLite's error for a missing table is recognised by `isNoSuchTableErr`. -/
theorem isNoSuchTableErr_missing (t : String) :
    isNoSuchTableErr (some ("no such table: " ++ t)) = true := by
  unfold isNoSuchTableErr
  simp only
  rw [strContains_iff, String.data_append]
  exact ⟨[], [':', ' '] ++ t.data, by simp⟩

theorem loadLabelsLoop_clean (items : List (Except String (Int × String))) (labels : LabelMap)
    (h : ∀ x ∈ items, ∃ a, x = Except.ok a) :
    ∃ lm, loadLabelsLoop none items labels = .ok lm := by
  induction items generalizing labels with
  | nil => exact ⟨labels, rfl⟩
  | cons x items ih =>
    obtain ⟨⟨id, name⟩, rfl⟩ := h x (List.mem_cons_self _ _)
    exact ih _ (fun y hy => h y (List.mem_cons_of_mem _ hy))

theorem loadLabelMap_nil (db : DB) (e : String) (h : db.selectLabels = .error e)
    (hno : isNoSuchTableErr (some e) = true) : loadLabelMap db = .ok [] := by
  unfold loadLabelMap loadAllLabels
  rw [h]
  simp only [hno, if_true]

theorem loadLabelMap_ok_of (db : DB) (h : OkOrNoTable db.selectLabels) :
    ∃ lm, loadLabelMap db = .ok lm := by
  cases hs : db.selectLabels with
  | error e =>
    rw [hs] at h
    exact ⟨[], loadLabelMap_nil db e hs h⟩
  | ok rows =>
    rw [hs] at h
    obtain ⟨lm, hlm⟩ := loadLabelsLoop_clean rows.items [] h.1
    refine ⟨lm, ?_⟩
    unfold loadLabelMap loadAllLabels
    rw [hs]
    simp only [h.2, hlm]

theorem columnExistsLoop_clean (lower : String) (items : List (Except String String))
    (h : ∀ x ∈ items, ∃ a, x = Except.ok a) :
    ∃ b, columnExistsLoop lower none items = .ok b := by
  induction items with
  | nil => exact ⟨false, rfl⟩
  | cons x items ih =>
    obtain ⟨name, rfl⟩ := h x (List.mem_cons_self _ _)
    unfold columnExistsLoop
    split
    · exact ⟨true, rfl⟩
    · exact ih (fun y hy => h y (List.mem_cons_of_mem _ hy))

theorem columnExists_ok (db : DB) (t c : String)
    (h : ∃ rows, db.tableInfo t = .ok rows ∧ rows.Clean) :
    ∃ b, columnExists db t c = .ok b := by
  obtain ⟨rows, hr, hc⟩ := h
  unfold columnExists
  rw [hr]
  simp only [hc.2]
  exact columnExistsLoop_clean _ rows.items hc.1

theorem tableExists_ok (db : DB) (t : String)
    (h : ∀ msg, db.masterLookup t = .failed msg → isNoSuchTableErr (some msg) = true) :
    ∃ b, tableExists db t = .ok b := by
  unfold tableExists
  cases hm : db.masterLookup t with
  | row a => exact ⟨true, rfl⟩
  | noRows => exact ⟨false, rfl⟩
  | failed msg =>
    simp only [h msg hm, if_true]
    exact ⟨false, rfl⟩

theorem foundLoop_clean (items : List (Except String String)) (found : List String)
    (h : ∀ x ∈ items, ∃ a, x = Except.ok a) :
    ∃ f, foundLoop items found = .ok f := by
  induction items generalizing found with
  | nil => exact ⟨found, rfl⟩
  | cons x items ih =>
    obtain ⟨name, rfl⟩ := h x (List.mem_cons_self _ _)
    exact ih _ (fun y hy => h y (List.mem_cons_of_mem _ hy))

theorem columnsExist_ok (db : DB) (t : String) (cols : List String)
    (hm : ∀ msg, db.masterLookup t = .failed msg → isNoSuchTableErr (some msg) = true)
    (h : ∃ rows, db.tableInfo t = .ok rows ∧ rows.Clean) :
    ∃ b, columnsExist db t cols = .ok b := by
  obtain ⟨rows, hr, hc⟩ := h
  obtain ⟨b, hb⟩ := tableExists_ok db t hm
  unfold columnsExist
  rw [hb]
  cases b with
  | false => exact ⟨false, rfl⟩
  | true =>
    simp only [hr]
    obtain ⟨f, hf⟩ := foundLoop_clean rows.items [] hc.1
    rw [hf]
    simp only [hc.2]
    exact ⟨_, rfl⟩

/-- Under missing-table-only failures the candidate loop returns no error, and a
candidate it returns has passed the column probe. -/
theorem detectCandidates_ok (db : DB) (hdb : MissingTablesOnly db)
    (cands : List (String × String × String)) :
    ∃ r, detectCandidates db cands = .ok r ∧
      ∀ t u l, r = some (t, u, l) → columnsExist db t [u, l] = .ok true := by
  induction cands with
  | nil => exact ⟨none, rfl, fun _ _ _ h => by cases h⟩
  | cons c cands ih =>
    obtain ⟨t, u, l⟩ := c
    obtain ⟨b, hb⟩ := tableExists_ok db t (hdb.masterLookup t)
    unfold detectCandidates
    rw [hb]
    cases b with
    | false => exact ih
    | true =>
      simp only
      obtain ⟨b2, hb2⟩ := columnsExist_ok db t [u, l] (hdb.masterLookup t) (hdb.tableInfo t)
      rw [hb2]
      cases b2 with
      | false => exact ih
      | true =>
        refine ⟨some (t, u, l), rfl, fun t' u' l' h => ?_⟩
        injection h with h
        injection h with h1 h2
        injection h2 with h2 h3
        subst h1 h2 h3
        exact hb2

theorem detectWildcard_ok (db : DB) (hdb : MissingTablesOnly db)
    (items : List (Except String String)) (h : ∀ x ∈ items, ∃ a, x = Except.ok a) :
    ∃ t u l, detectWildcard db none items = .ok (t, u, l) ∧
      (t ≠ "" → columnsExist db t [u, l] = .ok true) := by
  induction items with
  | nil => exact ⟨"", "", "", rfl, fun h => absurd rfl h⟩
  | cons x items ih =>
    obtain ⟨table, rfl⟩ := h x (List.mem_cons_self _ _)
    have ih' := ih (fun y hy => h y (List.mem_cons_of_mem _ hy))
    obtain ⟨b, hb⟩ := columnsExist_ok db table ["username", "label_id_"]
      (hdb.masterLookup table) (hdb.tableInfo table)
    unfold detectWildcard
    rw [hb]
    cases b with
    | false => exact ih'
    | true => exact ⟨table, "username", "label_id_", rfl, fun _ => hb⟩

theorem detectLinkTable_ok (db : DB) (hdb : MissingTablesOnly db) :
    ∃ t u l, detectLinkTable db = .ok (t, u, l) ∧
      (t ≠ "" → columnsExist db t [u, l] = .ok true) := by
  obtain ⟨r, hr, hcols⟩ := detectCandidates_ok db hdb candidates
  unfold detectLinkTable
  rw [hr]
  cases r with
  | some found =>
    obtain ⟨t, u, l⟩ := found
    exact ⟨t, u, l, rfl, fun _ => hcols t u l rfl⟩
  | none =>
    simp only
    have hm := hdb.masterLabelTables
    cases hq : db.masterLabelTables with
    | error e =>
      rw [hq] at hm
      simp only [show isNoSuchTableErr (some e) = true from hm, if_true]
      exact ⟨"", "", "", rfl, fun h => absurd rfl h⟩
    | ok rows =>
      rw [hq] at hm
      simp only [hm.2]
      exact detectWildcard_ok db hdb rows.items hm.1

theorem inlineTier_ok (db : DB) (hdb : MissingTablesOnly db) (lm : LabelMap) :
    ∃ link, inlineTier db lm = .ok link := by
  obtain ⟨b, hb⟩ := columnExists_ok db "contact" "LabelIDList" (hdb.tableInfo "contact")
  unfold inlineTier
  rw [hb]
  cases b with
  | false => exact ⟨[], by simp⟩
  | true =>
    simp only [if_true]
    have hq := hdb.idList hb
    cases hs : db.selectLabelIDList with
    | error e =>
      rw [hs] at hq
      simp only [show isNoSuchTableErr (some e) = true from hq]
      exact ⟨[], by simp⟩
    | ok rows =>
      rw [hs] at hq
      exact ⟨_, idListLoop_of_clean lm rows [] hq⟩

theorem linkTableTier_ok (db : DB) (hdb : MissingTablesOnly db) (lm : LabelMap)
    (link : LinkMap) : ∃ link', linkTableTier db lm link = .ok link' := by
  by_cases hl : link = []
  · subst hl
    obtain ⟨t, u, l, hdet, hcols⟩ := detectLinkTable_ok db hdb
    unfold linkTableTier
    simp only [List.length_nil, if_true, hdet]
    by_cases ht : t = ""
    · exact ⟨[], by simp [ht]⟩
    · simp only [ne_eq, ht, not_false_eq_true, if_true]
      have hq := hdb.link u l t (hcols ht)
      cases hs : db.selectLink u l t with
      | error e =>
        rw [hs] at hq
        simp only [show isNoSuchTableErr (some e) = true from hq]
        exact ⟨[], by simp⟩
      | ok rows =>
        rw [hs] at hq
        exact ⟨_, linkRowsLoop_of_clean lm rows [] hq⟩
  · exact ⟨link, linkTableTier_of_ne db lm link hl⟩

theorem collectLink_ok_of (db : DB) (hdb : MissingTablesOnly db) :
    ∃ link, collectLink db = .ok link := by
  obtain ⟨lm, hlm⟩ := loadLabelMap_ok_of db hdb.labels
  obtain ⟨link, hlink⟩ := inlineTier_ok db hdb lm
  obtain ⟨link', hlink'⟩ := linkTableTier_ok db hdb lm link
  exact ⟨link', by rw [collectLink_ok db lm link hlm hlink, hlink']⟩

theorem heuristicLoop_noerr (db : DB) (hs : Bool) (cs : List ContactV4)
    (h : ∀ u msg, db.queryDescription u ≠ .failed msg) :
    (heuristicLoop db hs cs).2 = none := by
  induction cs with
  | nil => rfl
  | cons c rest ih =>
    unfold heuristicLoop
    split
    · exact ih
    · split
      · cases hq : db.queryDescription c.UserName with
        | failed msg => exact absurd hq (h _ _)
        | noRows => exact ih
        | row d =>
          cases d with
          | none => exact ih
          | some d =>
            simp only
            split <;> exact ih
      · exact ih

theorem heuristicTier_noerr (db : DB) (hdb : MissingTablesOnly db) (cs : List ContactV4) :
    (heuristicTier db cs).2 = none := by
  obtain ⟨b, hb⟩ := columnExists_ok db "contact" "description" (hdb.tableInfo "contact")
  unfold heuristicTier
  rw [hb]
  cases b with
  | false => simpa using heuristicLoop_noerr db false cs hdb.description
  | true =>
    simp only [if_true]
    cases hp : db.prepareDescription with
    | none => exact heuristicLoop_noerr db true cs hdb.description
    | some e =>
      simp only [show isNoSuchTableErr (some e) = true from hdb.prepare hb e hp]
      simpa using heuristicLoop_noerr db false cs hdb.description

/-- No error is returned when every statement issued succeeds or fails for a missing
table. -/
theorem fill_noerr (db : DB) (contacts : List ContactV4)
    (hdb : MissingTablesOnly db) : (fillContactLabelsV4 db contacts).2 = none := by
  by_cases hcs : contacts = []
  · subst hcs; rfl
  obtain ⟨link, hlink⟩ := collectLink_ok_of db hdb
  by_cases hl : link = []
  · subst hl
    rw [fill_of_nolink db contacts hcs hlink]
    exact heuristicTier_noerr db hdb contacts
  · rw [fill_of_link db contacts link hcs hlink hl]

/-- C7, amended.  `fillContactLabelsV4` returns no error when every statement it
issues succeeds or fails for a missing table; a missing `LabelIDList` or
`description` column of `contact` and a missing `username` or `label_id_` column of
a link table are found by the probes, so the statements naming them are not
issued. -/
theorem no_error_on_missing_tables (db : DB) (contacts : List ContactV4)
    (hdb : MissingTablesOnly db) : (fillContactLabelsV4 db contacts).2 = none :=
  fill_noerr db contacts hdb

theorem missingTablesOnly_linkTestDB : MissingTablesOnly linkTestDB where
  labels := rowsOf_clean _
  tableInfo := by
    intro t
    simp only [linkTestDB]
    split_ifs <;> exact ⟨_, rfl, rowsOf_clean _⟩
  masterLookup := by
    intro t msg h
    simp only [linkTestDB] at h
    split_ifs at h
  masterLabelTables := rowsOf_clean _
  idList := by
    intro h
    have : columnExists linkTestDB "contact" "LabelIDList" = .ok false := rfl
    rw [this] at h
    cases h
  link := by
    intro u l t _
    simp only [linkTestDB]
    split_ifs
    · exact rowsOf_clean _
    · exact isNoSuchTableErr_missing t
  prepare := by
    intro h
    have : columnExists linkTestDB "contact" "description" = .ok false := rfl
    rw [this] at h
    cases h
  description := by
    intro u msg h
    simp only [linkTestDB, emptyDB] at h
    cases h

theorem missingTablesOnly_heuristicTestDB : MissingTablesOnly heuristicTestDB where
  labels := isNoSuchTableErr_missing "contact_label"
  tableInfo := by
    intro t
    simp only [heuristicTestDB]
    split_ifs <;> exact ⟨_, rfl, rowsOf_clean _⟩
  masterLookup := by
    intro t msg h
    simp only [heuristicTestDB] at h
    split_ifs at h
  masterLabelTables := rowsOf_clean _
  idList := by
    intro h
    have : columnExists heuristicTestDB "contact" "LabelIDList" = .ok false := rfl
    rw [this] at h
    cases h
  link := by
    intro u l t _
    exact isNoSuchTableErr_missing t
  prepare := by
    intro _ e h
    cases h
  description := by
    intro u msg h
    simp only [heuristicTestDB] at h
    split_ifs at h

/-- C7 at the database of the test `Mapping table fallback`, which has neither a
`LabelIDList` nor a `description` column. -/
theorem no_error_on_missing_tables_witness :
    MissingTablesOnly linkTestDB ∧
    (fillContactLabelsV4 linkTestDB linkTestContacts).2 = none :=
  ⟨missingTablesOnly_linkTestDB,
    no_error_on_missing_tables linkTestDB linkTestContacts missingTablesOnly_linkTestDB⟩

/-- C7 as stated fails: in `renamedLabelColumnsDB` the only failures are SQLite's
errors for a missing table or column, yet reading the dictionary fails with
`no such column`, which `isNoSuchTableErr` does not recognise, and the call returns
that error. -/
theorem no_error_on_absence_counterexample :
    SchemaAbsenceOnly renamedLabelColumnsDB ∧
    (fillContactLabelsV4 renamedLabelColumnsDB heuristicTestContacts).2
      = some "load labels: no such column: label_id_" := by
  refine ⟨?_, by decide⟩
  exact {
    labels := ⟨"label_id_", Or.inr rfl⟩
    tableInfo := by
      intro t
      simp only [renamedLabelColumnsDB]
      split_ifs <;> exact ⟨_, rfl, rowsOf_clean _⟩
    masterLookup := by
      intro t msg h
      simp only [renamedLabelColumnsDB] at h
      split_ifs at h
    masterLabelTables := rowsOf_clean _
    idList := ⟨"LabelIDList", Or.inr rfl⟩
    link := fun _ _ t => ⟨t, Or.inl rfl⟩
    prepare := by
      intro e h
      simp only [renamedLabelColumnsDB] at h
      injection h with h
      exact ⟨"description", Or.inr h.symm⟩
    description := by
      intro u msg h
      simp only [renamedLabelColumnsDB, emptyDB] at h
      cases h }

theorem resolveName_nil (id : Int) : resolveName [] id = none := rfl

theorem namesOfRaw_nil (raw : Option String) : namesOfRaw [] raw = [] := by
  unfold namesOfRaw
  cases raw with
  | none => rfl
  | some s =>
    simp only
    split
    · rfl
    · apply List.filterMap_eq_nil_iff.2
      intro id _
      rfl

theorem inlineEvidence_nil (vs : List (String × Option String)) : inlineEvidence [] vs = [] := by
  unfold inlineEvidence
  simp [namesOfRaw_nil]

theorem linkEvidence_nil (vs : List (String × Int)) : linkEvidence [] vs = [] := by
  unfold linkEvidence
  apply List.filterMap_eq_nil_iff.2
  intro r _
  rfl

/-- With the empty dictionary no structured tier produces an association. -/
theorem collectLink_of_empty_dictionary (db : DB) (hdb : MissingTablesOnly db)
    (hdict : loadLabelMap db = .ok []) : collectLink db = .ok [] := by
  obtain ⟨link, hlink⟩ := inlineTier_ok db hdb []
  have h1 : link = [] := by
    rcases inlineTier_ok_cases db [] link hlink with h | ⟨_, rows, _, _, h⟩
    · exact h
    · rw [h, inlineEvidence_nil]; rfl
  subst h1
  obtain ⟨link', hlink'⟩ := linkTableTier_ok db hdb [] []
  have h2 : link' = [] := by
    rcases linkTableTier_ok_cases db [] link' hlink' with h | ⟨_, _, _, rows, _, _, _, _, h⟩
    · exact h
    · rw [h, linkEvidence_nil]; rfl
  subst h2
  rw [collectLink_ok db [] [] hdict hlink, hlink']

/-- C8.  Absent dictionary: when reading `contact_label` fails for a missing table and
every other statement issued succeeds (or fails for a missing table), the call
returns no error, the dictionary is the empty mapping, no association is produced
by the inline lists or the link table, the result is that of the heuristic tier,
and a contact receives at most the label `客户`. -/
theorem absent_dictionary (db : DB) (contacts : List ContactV4) (e : String)
    (hlabels : db.selectLabels = .error e)
    (hno : isNoSuchTableErr (some e) = true)
    (hothers : MissingTablesOnly db) :
    (fillContactLabelsV4 db contacts).2 = none ∧
    loadLabelMap db = .ok [] ∧
    collectLink db = .ok [] ∧
    fillContactLabelsV4 db contacts = heuristicTier db contacts ∧
    List.Forall₂ (fun c c' => c'.Labels = c.Labels ∨ c'.Labels = c.Labels ++ ["客户"])
      contacts (fillContactLabelsV4 db contacts).1 := by
  have hdict := loadLabelMap_nil db e hlabels hno
  have hlink := collectLink_of_empty_dictionary db hothers hdict
  have hfill : fillContactLabelsV4 db contacts = heuristicTier db contacts := by
    by_cases hcs : contacts = []
    · subst hcs
      rcases heuristicTier_cases db [] with ⟨e', h⟩ | h
      · have := heuristicTier_noerr db hothers []
        rw [h] at this
        cases this
      · rw [h]; rfl
    · exact fill_of_nolink db contacts hcs hlink
  refine ⟨fill_noerr db contacts hothers, hdict, hlink, hfill, ?_⟩
  rw [hfill]
  refine (heuristicTier_general db contacts).imp ?_
  rintro c c' (rfl | ⟨_, rfl⟩)
  · exact Or.inl rfl
  · exact Or.inr rfl

/-- C8 at the database of the test `Heuristic fallback`, which has no `contact_label`
table. -/
theorem absent_dictionary_witness :
    heuristicTestDB.selectLabels = .error "no such table: contact_label" ∧
    isNoSuchTableErr (some "no such table: contact_label") = true ∧
    MissingTablesOnly heuristicTestDB ∧
    (fillContactLabelsV4 heuristicTestDB heuristicTestContacts).2 = none ∧
    loadLabelMap heuristicTestDB = .ok [] ∧
    collectLink heuristicTestDB = .ok [] ∧
    fillContactLabelsV4 heuristicTestDB heuristicTestContacts
      = heuristicTier heuristicTestDB heuristicTestContacts ∧
    List.Forall₂ (fun c c' => c'.Labels = c.Labels ∨ c'.Labels = c.Labels ++ ["客户"])
      heuristicTestContacts (fillContactLabelsV4 heuristicTestDB heuristicTestContacts).1 :=
  ⟨rfl, by decide, missingTablesOnly_heuristicTestDB,
    absent_dictionary heuristicTestDB heuristicTestContacts "no such table: contact_label"
      rfl (by decide) missingTablesOnly_heuristicTestDB⟩

/-- C16.  For the empty contact sequence and every database, also one in which every
query would fail, `fillContactLabelsV4` returns no error and leaves the sequence as
it is; the outcome does not depend on any answer of the database, the function
returning before its first query. -/
theorem empty_contacts_noop :
    (∀ db : DB, fillContactLabelsV4 db [] = ([], none)) ∧
    (∀ db₁ db₂ : DB, fillContactLabelsV4 db₁ [] = fillContactLabelsV4 db₂ []) :=
  ⟨fun _ => rfl, fun _ _ => rfl⟩

/-- C17.  In the build without cgo, `Silk2MP3` returns for every input, the empty and
the nil slice included, no bytes together with an error. -/
theorem silk_stub_fails (data : Option (List Nat)) :
    (Silk2MP3 data).1 = none ∧ (Silk2MP3 data).2 ≠ none ∧
    (Silk2MP3 data).2 = some "silk to mp3 conversion requires cgo-enabled build" :=
  ⟨rfl, by simp [Silk2MP3], rfl⟩

theorem mem_dedupLoop (seen vs : List String) (x : String) :
    x ∈ dedupLoop seen vs ↔ x ∈ vs ∧ x ∉ seen := by
  induction vs generalizing seen with
  | nil => simp [dedupLoop]
  | cons v vs ih =>
    unfold dedupLoop
    by_cases h : v ∈ seen
    · rw [if_pos h, ih]
      constructor
      · rintro ⟨h1, h2⟩; exact ⟨List.mem_cons_of_mem _ h1, h2⟩
      · rintro ⟨h1, h2⟩
        rcases List.mem_cons.1 h1 with rfl | h1
        · exact absurd h h2
        · exact ⟨h1, h2⟩
    · rw [if_neg h, List.mem_cons, ih]
      constructor
      · rintro (rfl | ⟨h1, h2⟩)
        · exact ⟨List.mem_cons_self _ _, h⟩
        · exact ⟨List.mem_cons_of_mem _ h1, fun hs => h2 (List.mem_cons_of_mem _ hs)⟩
      · rintro ⟨h1, h2⟩
        by_cases hx : x = v
        · exact Or.inl hx
        · right
          rcases List.mem_cons.1 h1 with rfl | h1
          · exact absurd rfl hx
          · refine ⟨h1, fun hs => ?_⟩
            rcases List.mem_cons.1 hs with rfl | hs
            · exact hx rfl
            · exact h2 hs

theorem dedupLoop_sublist (seen vs : List String) : (dedupLoop seen vs).Sublist vs := by
  induction vs generalizing seen with
  | nil => exact List.Sublist.slnil
  | cons v vs ih =>
    unfold dedupLoop
    split
    · exact (ih seen).cons v
    · exact (ih (v :: seen)).cons₂ v

theorem dedupLoop_snoc (seen vs : List String) (x : String) :
    dedupLoop seen (vs ++ [x])
      = if x ∈ seen ∨ x ∈ vs then dedupLoop seen vs else dedupLoop seen vs ++ [x] := by
  induction vs generalizing seen with
  | nil =>
    simp only [List.nil_append, dedupLoop, List.not_mem_nil, or_false]
  | cons v vs ih =>
    rw [List.cons_append]
    unfold dedupLoop
    by_cases h : v ∈ seen
    · rw [if_pos h, if_pos h, ih]
      by_cases hx : x ∈ seen
      · simp [hx]
      · by_cases hv : x = v
        · subst hv; exact absurd h hx
        · simp [hx, hv]
    · rw [if_neg h, if_neg h, ih]
      by_cases hv : x = v
      · subst hv; simp
      · by_cases hx : x ∈ seen
        · simp [hx]
        · by_cases hxs : x ∈ vs
          · simp [hxs]
          · simp [hx, hv, hxs]

theorem dedupLoop_of_nodup (seen vs : List String) (hn : vs.Nodup)
    (hd : ∀ x ∈ vs, x ∉ seen) : dedupLoop seen vs = vs := by
  induction vs generalizing seen with
  | nil => rfl
  | cons v vs ih =>
    unfold dedupLoop
    rw [if_neg (hd v (List.mem_cons_self _ _))]
    have hn' := List.nodup_cons.1 hn
    rw [ih (v :: seen) hn'.2]
    intro x hx hs
    rcases List.mem_cons.1 hs with rfl | hs
    · exact hn'.1 hx
    · exact hd x (List.mem_cons_of_mem _ hx) hs

/-- C18.  `dedup` keeps first occurrences: the result has no element twice, has the
elements of the input, is a subsequence of it, is built by appending each value
that has not occurred before (so each element stands where it first occurs), is
unchanged by a second pass, and equals the input when that has no duplicates. -/
theorem dedup_first_occurrences (xs : List String) :
    (dedup xs).Nodup ∧
    (∀ x, x ∈ dedup xs ↔ x ∈ xs) ∧
    (dedup xs).Sublist xs ∧
    dedup [] = [] ∧
    (∀ x, dedup (xs ++ [x]) = if x ∈ xs then dedup xs else dedup xs ++ [x]) ∧
    dedup (dedup xs) = dedup xs ∧
    (xs.Nodup → dedup xs = xs) := by
  refine ⟨dedup_nodup xs, fun x => ?_, dedupLoop_sublist [] xs, rfl, fun x => ?_, ?_, fun h => ?_⟩
  · unfold dedup; rw [mem_dedupLoop]; simp
  · unfold dedup; rw [dedupLoop_snoc]; simp
  · exact dedupLoop_of_nodup [] (dedup xs) (dedup_nodup xs) (fun _ _ h => by cases h)
  · exact dedupLoop_of_nodup [] xs h (fun _ _ h => by cases h)

/-- C18 on a list with repetitions and on one without. -/
theorem dedup_first_occurrences_witness :
    dedup ["b", "a", "b", "c", "a"] = ["b", "a", "c"] ∧
    (["x", "y"] : List String).Nodup ∧ dedup ["x", "y"] = ["x", "y"] :=
  ⟨by decide, by decide, (dedup_first_occurrences ["x", "y"]).2.2.2.2.2.2 (by decide)⟩

theorem splitComma_length (s : List Char) : (splitComma s).length = s.count ',' + 1 := by
  induction s with
  | nil => rfl
  | cons c s ih =>
    unfold splitComma
    by_cases hc : c = ','
    · subst hc
      simp [ih]
    · rw [if_neg hc]
      have hne := splitComma_ne_nil s
      cases hs : splitComma s with
      | nil => exact absurd hs hne
      | cons p ps =>
        rw [hs] at ih
        simp only [List.length_cons] at ih ⊢
        rw [List.count_cons_of_ne (fun e => hc e.symm)]
        exact ih

theorem mem_of_mem_splitComma (s t : List Char) (ht : t ∈ splitComma s) :
    ∀ c ∈ t, c ∈ s := by
  induction s generalizing t with
  | nil =>
    simp [splitComma] at ht
    subst ht
    intro c hc; cases hc
  | cons d s ih =>
    unfold splitComma at ht
    by_cases hd : d = ','
    · rw [if_pos hd] at ht
      rcases List.mem_cons.1 ht with rfl | ht
      · intro c hc; cases hc
      · intro c hc; exact List.mem_cons_of_mem _ (ih t ht c hc)
    · rw [if_neg hd] at ht
      cases hs : splitComma s with
      | nil => exact absurd hs (splitComma_ne_nil s)
      | cons p ps =>
        rw [hs] at ht ih
        simp only [List.mem_cons] at ht
        rcases ht with rfl | ht
        · intro c hc
          rcases List.mem_cons.1 hc with rfl | hc
          · exact List.mem_cons_self _ _
          · exact List.mem_cons_of_mem _ (ih p (List.mem_cons_self _ _) c hc)
        · intro c hc
          exact List.mem_cons_of_mem _ (ih t (List.mem_cons_of_mem _ ht) c hc)

theorem parseID_pos (t : List Char) (n : Int) (h : parseID t = some n) : 0 < n := by
  unfold parseID at h
  simp only at h
  split at h
  · cases h
  · split at h
    · split at h
      · injection h with h; subst h; assumption
      · cases h
    · cases h

theorem trimSpaceChars_of_spaces (t : List Char) (h : ∀ c ∈ t, isSpace c = true) :
    trimSpaceChars t = [] := by
  have : t.dropWhile isSpace = [] := by
    rw [List.dropWhile_eq_nil_iff]
    exact h
  unfold trimSpaceChars
  rw [this]
  rfl

theorem parseID_of_spaces (t : List Char) (h : ∀ c ∈ t, isSpace c = true) :
    parseID t = none := by
  unfold parseID
  simp [trimSpaceChars_of_spaces t h]

/-- C20.  Every id returned by `splitIDs` is strictly positive, there are at most as
many ids as comma-separated tokens (commas plus one), the ids are the contributions
of the tokens in token order, and no id is returned when the input is empty or
holds only commas and white space. -/
theorem splitIDs_bounds (raw : String) :
    (∀ id ∈ splitIDs raw, 0 < id) ∧
    (splitIDs raw).length ≤ raw.data.count ',' + 1 ∧
    (splitComma raw.data).length = raw.data.count ',' + 1 ∧
    splitIDs raw = (splitComma raw.data).filterMap parseID ∧
    splitIDs "" = [] ∧
    ((∀ c ∈ raw.data, c = ',' ∨ isSpace c = true) → splitIDs raw = []) := by
  refine ⟨?_, ?_, splitComma_length _, rfl, by decide, ?_⟩
  · intro id hid
    obtain ⟨t, _, ht⟩ := List.mem_filterMap.1 hid
    exact parseID_pos t id ht
  · rw [← splitComma_length]
    exact List.length_filterMap_le _ _
  · intro h
    unfold splitIDs
    rw [List.filterMap_eq_nil_iff]
    intro t ht
    apply parseID_of_spaces
    intro c hc
    have hcs := mem_of_mem_splitComma _ t ht c hc
    rcases h c hcs with rfl | hsp
    · exfalso
      clear h hcs
      -- a piece holds no comma
      have key : ∀ (s t : List Char), t ∈ splitComma s → ',' ∉ t := by
        intro s
        induction s with
        | nil =>
          intro t ht hc
          simp [splitComma] at ht
          subst ht; cases hc
        | cons d s ih =>
          intro t ht
          unfold splitComma at ht
          by_cases hd : d = ','
          · rw [if_pos hd] at ht
            rcases List.mem_cons.1 ht with rfl | ht
            · intro hc; cases hc
            · exact ih t ht
          · rw [if_neg hd] at ht
            cases hs : splitComma s with
            | nil => exact absurd hs (splitComma_ne_nil s)
            | cons p ps =>
              rw [hs] at ht ih
              simp only [List.mem_cons] at ht
              rcases ht with rfl | ht
              · intro hc
                rcases List.mem_cons.1 hc with e | hc
                · exact hd e.symm
                · exact ih p (List.mem_cons_self _ _) hc
              · exact ih t (List.mem_cons_of_mem _ ht)
      exact key _ t ht hc
    · exact hsp

/-- C20 on an input of commas and blanks. -/
theorem splitIDs_bounds_witness :
    splitIDs " , ,, " = [] ∧ splitIDs "3, 1,x,2" = [3, 1, 2] :=
  ⟨(splitIDs_bounds " , ,, ").2.2.2.2.2 (by decide), by decide⟩

theorem contains_trim_iff (s : String) (sub : List Char) (hne : sub ≠ [])
    (hf : ∀ c ∈ sub.head?, isSpace c = false)
    (hl : ∀ c ∈ sub.getLast?, isSpace c = false) :
    containsChars (trimSpace s).data sub = true ↔ containsChars s.data sub = true := by
  constructor
  · intro h
    rw [containsChars_iff] at h ⊢
    exact h.trans (trimSpaceChars_within s.data)
  · exact contains_trim s sub hne hf hl

/-- C19.  `looksLikeClient` holds exactly for a value that contains `客户`, `[客户]` or
`#客户`, or that contains `customer` once lower-cased; equivalently, for one that
contains `客户` or whose lower-case form contains `customer`.  Trimming the value does
not change the verdict, which is false for the empty string and for a string of
white space. -/
theorem looksLikeClient_markers (v : String) :
    (looksLikeClient v = true ↔
      strContains v "客户" = true ∨ strContains v "[客户]" = true ∨
        strContains v "#客户" = true ∨ strContains (toLower v) "customer" = true) ∧
    (looksLikeClient v = true ↔
      strContains v "客户" = true ∨ strContains (toLower v) "customer" = true) ∧
    looksLikeClient (trimSpace v) = looksLikeClient v ∧
    looksLikeClient "" = false ∧
    ((∀ c ∈ v.data, isSpace c = true) → looksLikeClient v = false) := by
  have hsub : ∀ sub : String, "客户".data <:+: sub.data →
      strContains v sub = true → strContains v "客户" = true := by
    intro sub hs h
    rw [strContains_iff] at h ⊢
    exact hs.trans h
  refine ⟨?_, looksLikeClient_iff v, ?_, by decide, ?_⟩
  · rw [looksLikeClient_iff]
    constructor
    · rintro (h | h)
      · exact Or.inl h
      · exact Or.inr (Or.inr (Or.inr h))
    · rintro (h | h | h | h)
      · exact Or.inl h
      · exact Or.inl (hsub "[客户]" ⟨['['], [']'], rfl⟩ h)
      · exact Or.inl (hsub "#客户" ⟨['#'], [], rfl⟩ h)
      · exact Or.inr h
  · rw [Bool.eq_iff_iff, looksLikeClient_iff, looksLikeClient_iff, toLower_trimSpace]
    have h1 := contains_trim_iff v "客户".data (by decide) (by decide) (by decide)
    have h2 := contains_trim_iff (toLower v) "customer".data (by decide) (by decide) (by decide)
    unfold strContains
    rw [h1, h2]
  · intro h
    have : trimSpace v = "" := by
      unfold trimSpace
      rw [trimSpaceChars_of_spaces v.data h]
    unfold looksLikeClient
    simp [this]

/-- C19 on a string of white space. -/
theorem looksLikeClient_markers_witness :
    looksLikeClient " \t\n" = false ∧ looksLikeClient "  Big CUSTOMER " = true :=
  ⟨(looksLikeClient_markers " \t\n").2.2.2.2 (by decide), by decide⟩

theorem resolveName_some (lm : LabelMap) (id : Int) (n : String)
    (h : resolveName lm id = some n) : lm.get id = some n ∧ n ≠ "" := by
  unfold resolveName at h
  cases hg : lm.get id with
  | none => rw [hg] at h; cases h
  | some name =>
    rw [hg] at h
    simp only at h
    split at h
    · injection h with h; subst h; exact ⟨rfl, by assumption⟩
    · cases h

theorem namesOfRaw_resolved (lm : LabelMap) (raw : Option String) :
    ∀ n ∈ namesOfRaw lm raw, ∃ id, resolveName lm id = some n := by
  intro n hn
  unfold namesOfRaw at hn
  cases raw with
  | none => cases hn
  | some s =>
    simp only at hn
    split at hn
    · cases hn
    · obtain ⟨id, _, h⟩ := List.mem_filterMap.1 hn
      exact ⟨id, h⟩

theorem inlineEvidence_resolved (lm : LabelMap) (vs : List (String × Option String)) :
    ∀ p ∈ inlineEvidence lm vs, ∃ id, resolveName lm id = some p.2 := by
  intro p hp
  unfold inlineEvidence at hp
  rw [List.mem_flatMap] at hp
  obtain ⟨r, _, hr⟩ := hp
  obtain ⟨n, hn, rfl⟩ := List.mem_map.1 hr
  exact namesOfRaw_resolved lm r.2 n hn

theorem linkEvidence_resolved (lm : LabelMap) (vs : List (String × Int)) :
    ∀ p ∈ linkEvidence lm vs, ∃ id, resolveName lm id = some p.2 := by
  intro p hp
  unfold linkEvidence at hp
  obtain ⟨r, _, hr⟩ := List.mem_filterMap.1 hp
  cases hn : resolveName lm r.2 with
  | none => rw [hn] at hr; cases hr
  | some n =>
    rw [hn] at hr
    simp only [Option.map_some'] at hr
    injection hr with hr
    subst hr
    exact ⟨r.2, hn⟩

/-- The association mapping, when built, holds only resolved dictionary names. -/
theorem collectLink_resolved (db : DB) (link : LinkMap) (h : collectLink db = .ok link) :
    ∃ lm, loadLabelMap db = .ok lm ∧
      (link = [] ∨ ∃ ev : List (String × String), link = pushAll [] ev ∧
        ∀ p ∈ ev, ∃ id, resolveName lm id = some p.2) := by
  unfold collectLink at h
  cases hd : loadLabelMap db with
  | error e => rw [hd] at h; cases h
  | ok lm =>
    rw [hd] at h
    simp only at h
    refine ⟨lm, rfl, ?_⟩
    cases hi : inlineTier db lm with
    | error e => rw [hi] at h; cases h
    | ok l1 =>
      rw [hi] at h
      simp only at h
      by_cases hl : l1 = []
      · subst hl
        rcases linkTableTier_ok_cases db lm link h with h1 | ⟨_, _, _, rows, _, _, _, _, h1⟩
        · exact Or.inl h1
        · exact Or.inr ⟨_, h1, linkEvidence_resolved lm rows.values⟩
      · rw [linkTableTier_of_ne db lm l1 hl] at h
        injection h with h
        subst h
        rcases inlineTier_ok_cases db lm l1 hi with h1 | ⟨_, rows, _, _, h1⟩
        · exact Or.inl h1
        · exact Or.inr ⟨_, h1, inlineEvidence_resolved lm rows.values⟩

theorem annotateOne_added (link : LinkMap) (c : ContactV4) :
    ∃ added, (annotateOne link c).Labels = c.Labels ++ added ∧
      ∀ x ∈ added, ∃ names, link.get c.UserName = some names ∧ x ∈ names := by
  unfold annotateOne
  cases hg : link.get c.UserName with
  | none => exact ⟨[], by simp, fun _ h => by cases h⟩
  | some names =>
    simp only
    split
    · refine ⟨dedup names, rfl, fun x hx => ⟨names, rfl, ?_⟩⟩
      exact ((mem_dedupLoop [] names x).1 hx).1
    · exact ⟨[], by simp, fun _ h => by cases h⟩

theorem mem_of_get_pushAll (ev : List (String × String)) (u : String) (names : List String)
    (h : (pushAll [] ev).get u = some names) : ∀ x ∈ names, ∃ p ∈ ev, p.2 = x := by
  rw [get_pushAll] at h
  split at h
  · cases h
  · injection h with h
    subst h
    intro x hx
    have : (LinkMap.get [] u).getD [] = [] := rfl
    rw [this, List.nil_append] at hx
    obtain ⟨p, hp, rfl⟩ := List.mem_map.1 hx
    exact ⟨p, (List.mem_filter.1 hp).1, rfl⟩

/-- C13.  A label with an empty name is never attached: every name that
`fillContactLabelsV4` appends to a contact's labels is a non-empty string, namely a
dictionary name or the synthetic label `客户`; and a label id whose dictionary name
is empty adds nothing to the association mapping, so it does not count when the
mapping is tested for emptiness. -/
theorem no_empty_label_attached (db : DB) (contacts : List ContactV4) :
    List.Forall₂ (fun c c' =>
      ∃ added : List String, c'.Labels = c.Labels ++ added ∧
        ∀ x ∈ added, x ≠ "" ∧
          (x = "客户" ∨ ∃ labelMap id, loadLabelMap db = .ok labelMap ∧
            labelMap.get id = some x))
      contacts (fillContactLabelsV4 db contacts).1 ∧
    (∀ (labelMap : LabelMap) (username : String) (link : LinkMap) (id : Int),
      labelMap.get id = some "" → addLabel labelMap username link id = link) := by
  constructor
  · by_cases hcs : contacts = []
    · subst hcs; exact List.Forall₂.nil
    cases h : collectLink db with
    | error e =>
      rw [fill_of_error db contacts e hcs h]
      exact List.forall₂_same.2 (fun c _ => ⟨[], by simp, fun _ hx => by cases hx⟩)
    | ok link =>
      by_cases hl : link = []
      · subst hl
        rw [fill_of_nolink db contacts hcs h]
        refine (heuristicTier_general db contacts).imp ?_
        rintro c c' (rfl | ⟨_, rfl⟩)
        · exact ⟨[], by simp, fun _ hx => by cases hx⟩
        · refine ⟨["客户"], rfl, fun x hx => ?_⟩
          have : x = "客户" := by simpa using hx
          subst this
          exact ⟨by decide, Or.inl rfl⟩
      · rw [fill_of_link db contacts link hcs h hl]
        obtain ⟨lm, hlm, hev⟩ := collectLink_resolved db link h
        rcases hev with h1 | ⟨ev, h1, hres⟩
        · exact absurd h1 hl
        · apply forall₂_map_of_forall
          intro c _
          obtain ⟨added, ha, hadd⟩ := annotateOne_added link c
          refine ⟨added, ha, fun x hx => ?_⟩
          obtain ⟨names, hg, hxn⟩ := hadd x hx
          rw [h1] at hg
          obtain ⟨p, hp, hpx⟩ := mem_of_get_pushAll ev c.UserName names hg x hxn
          obtain ⟨id, hid⟩ := hres p hp
          rw [hpx] at hid
          obtain ⟨hget, hne⟩ := resolveName_some lm id x hid
          exact ⟨hne, Or.inr ⟨lm, id, hlm, hget⟩⟩
  · intro lm u link id hg
    unfold addLabel
    rw [hg]
    simp

theorem tableExists_eq (db : DB) (t : String) (h : ∀ msg, db.masterLookup t ≠ .failed msg) :
    tableExists db t = .ok (tablePresent db t) := by
  unfold tableExists tablePresent
  cases hm : db.masterLookup t with
  | row a => rfl
  | noRows => rfl
  | failed msg => exact absurd hm (h msg)

theorem values_of_clean {α : Type} (items : List (Except String α))
    (h : ∀ x ∈ items, ∃ a, x = Except.ok a) (err : Option String) :
    items = (Rows.mk items err).values.map Except.ok := by
  induction items with
  | nil => rfl
  | cons x items ih =>
    obtain ⟨a, rfl⟩ := h x (List.mem_cons_self _ _)
    rw [values_ok_cons, List.map_cons]
    congr 1
    exact ih (fun y hy => h y (List.mem_cons_of_mem _ hy))

theorem foundLoop_values (vs found : List String) :
    foundLoop (vs.map Except.ok) found = .ok ((vs.map toLower).reverse ++ found) := by
  induction vs generalizing found with
  | nil => rfl
  | cons v vs ih =>
    simp only [List.map_cons, foundLoop]
    rw [ih]
    simp

theorem rows_values_eq {α : Type} (rows : Rows α) (h : rows.Clean) :
    rows.items = rows.values.map Except.ok := by
  have := values_of_clean rows.items h.1 rows.err
  exact this

/-- What `columnsExist` answers when its two probes succeed. -/
theorem columnsExist_eq (db : DB) (t : String) (rows : Rows String) (cols : List String)
    (hlookup : ∀ msg, db.masterLookup t ≠ .failed msg)
    (hinfo : db.tableInfo t = .ok rows) (hclean : rows.Clean) :
    columnsExist db t cols
      = .ok (tablePresent db t &&
          cols.all (fun c => rows.values.any (fun name => sameIgnoringCase name c))) := by
  unfold columnsExist
  rw [tableExists_eq db t hlookup]
  cases hp : tablePresent db t with
  | false => rfl
  | true =>
    simp only [hinfo]
    rw [rows_values_eq rows hclean, foundLoop_values]
    simp only [hclean.2, Bool.true_and]
    congr 2
    funext c
    rw [Bool.eq_iff_iff]
    simp only [List.append_nil, List.mem_reverse, List.mem_map, decide_eq_true_eq,
      List.any_eq_true, sameIgnoringCase, beq_iff_eq]

theorem schemaDB_lookup (tables : List Table) (t msg : String) :
    (schemaDB tables).masterLookup t ≠ .failed msg := by
  simp only [schemaDB]
  split <;> simp

theorem schemaDB_info (tables : List Table) (t : String) :
    ∃ rows, (schemaDB tables).tableInfo t = .ok rows ∧ rows.Clean := by
  simp only [schemaDB]
  split
  · exact ⟨_, rfl, rowsOf_clean _⟩
  · exact ⟨_, rfl, rowsOf_clean _⟩

/-- With succeeding probes, the column probe of `detectLinkTable` is `isLinkTable`. -/
theorem columnsExist_link (db : DB) (t : String)
    (hlookup : ∀ t msg, db.masterLookup t ≠ .failed msg)
    (hinfo : ∀ t, ∃ r, db.tableInfo t = .ok r ∧ r.Clean) :
    columnsExist db t ["username", "label_id_"] = .ok (isLinkTable db t) := by
  obtain ⟨rows, hr, hc⟩ := hinfo t
  rw [columnsExist_eq db t rows _ (hlookup t) hr hc]
  unfold isLinkTable hasColumn liveColumns
  rw [hr]
  simp [Bool.and_assoc]

theorem detectCandidates_step (db : DB) (t : String)
    (rest : List (String × String × String))
    (hlookup : ∀ t msg, db.masterLookup t ≠ .failed msg)
    (hinfo : ∀ t, ∃ r, db.tableInfo t = .ok r ∧ r.Clean) :
    detectCandidates db ((t, "username", "label_id_") :: rest)
      = if isLinkTable db t = true then .ok (some (t, "username", "label_id_"))
        else detectCandidates db rest := by
  have hc := columnsExist_link db t hlookup hinfo
  have ht := tableExists_eq db t (hlookup t)
  conv_lhs => unfold detectCandidates
  rw [ht]
  cases hp : tablePresent db t with
  | false =>
    have : isLinkTable db t = false := by simp [isLinkTable, hp]
    simp [this]
  | true =>
    simp only [hc]
    cases hl : isLinkTable db t <;> simp

theorem detectWildcard_values (db : DB) (vs : List String)
    (hlookup : ∀ t msg, db.masterLookup t ≠ .failed msg)
    (hinfo : ∀ t, ∃ r, db.tableInfo t = .ok r ∧ r.Clean) :
    detectWildcard db none (vs.map Except.ok)
      = .ok (linkResult (vs.find? (isLinkTable db))) := by
  induction vs with
  | nil => rfl
  | cons v vs ih =>
    simp only [List.map_cons, detectWildcard, columnsExist_link db v hlookup hinfo,
      List.find?_cons]
    cases hl : isLinkTable db v with
    | false => simpa using ih
    | true => rfl

/-- What `detectLinkTable` returns when every probe succeeds. -/
theorem detectLinkTable_eq (db : DB) (rows : Rows String)
    (hlookup : ∀ t msg, db.masterLookup t ≠ .failed msg)
    (hinfo : ∀ t, ∃ r, db.tableInfo t = .ok r ∧ r.Clean)
    (hlist : db.masterLabelTables = .ok rows) (hclean : rows.Clean) :
    detectLinkTable db
      = .ok (linkResult
          (match ["rcontact_label", "contact_label_map", "contact2label"].find?
              (isLinkTable db) with
            | some table => some table
            | none => rows.values.find? (isLinkTable db))) := by
  have hw : detectWildcard db rows.err rows.items
      = .ok (linkResult (rows.values.find? (isLinkTable db))) := by
    rw [hclean.2, rows_values_eq rows hclean]
    exact detectWildcard_values db rows.values hlookup hinfo
  unfold detectLinkTable candidates
  rw [detectCandidates_step db _ _ hlookup hinfo]
  simp only [List.find?_cons]
  cases h1 : isLinkTable db "rcontact_label" with
  | true => rfl
  | false =>
    simp only [Bool.false_eq_true, if_false]
    rw [detectCandidates_step db _ _ hlookup hinfo]
    cases h2 : isLinkTable db "contact_label_map" with
    | true => rfl
    | false =>
      simp only [Bool.false_eq_true, if_false]
      rw [detectCandidates_step db _ _ hlookup hinfo]
      cases h3 : isLinkTable db "contact2label" with
      | true => rfl
      | false =>
        simp only [Bool.false_eq_true, if_false, detectCandidates, hlist, List.find?_nil]
        exact hw

/-- C11.  Link-table selection: when every probe succeeds, `detectLinkTable` returns
the first of `rcontact_label`, `contact_label_map`, `contact2label` that exists as
a table and has both columns `username` and `label_id_`; if none does, the first
table with both columns in the listing that `sqlite_master` gives for the names
like `%label%`; if there is none, no table (the empty name) and no error.  A table
is returned with the column pair `username`, `label_id_`. -/
theorem detectLinkTable_selection (db : DB) (rows : Rows String)
    (hlookup : ∀ t msg, db.masterLookup t ≠ .failed msg)
    (hinfo : ∀ t, ∃ r, db.tableInfo t = .ok r ∧ r.Clean)
    (hlist : db.masterLabelTables = .ok rows) (hclean : rows.Clean) :
    detectLinkTable db
      = .ok (linkResult
          (match ["rcontact_label", "contact_label_map", "contact2label"].find?
              (isLinkTable db) with
            | some table => some table
            | none => rows.values.find? (isLinkTable db))) :=
  detectLinkTable_eq db rows hlookup hinfo hlist hclean

/-- C11 at a schema in which a wildcard table is listed first, the first named
candidate lacks the label column and the third has both columns: the third named
candidate is returned. -/
theorem detectLinkTable_selection_witness :
    isLinkTable (schemaDB twoCandidatesSchema) "rcontact_label" = false ∧
    isLinkTable (schemaDB twoCandidatesSchema) "my_labels" = true ∧
    detectLinkTable (schemaDB twoCandidatesSchema)
      = .ok ("contact2label", "username", "label_id_") :=
  ⟨by decide, by decide,
    (detectLinkTable_selection (schemaDB twoCandidatesSchema)
      (rowsOf ["my_labels", "rcontact_label", "contact2label"])
      (schemaDB_lookup _) (schemaDB_info _) rfl (rowsOf_clean _)).trans rfl⟩

end Chatlog
